import Mathlib

/-!
# Verification of the Debian BTS → GitHub issue sync (`bts_to_github/main.py`)

A shallow embedding of the reconciliation engine of the repository:
the Issue Matcher (`BugSyncer.fetch_github_issues_by_repo`), the
Reconciler (`BugSyncer.sync` / `BugSyncer.sync_bug`), the Throttler
(`BugSyncer.throttle` / `BugSyncer.throttle_abuse_limit`) and the helper
functions (`extract_msg_id`, `extract_msg_author`, `fetch_bug_log`,
`fetch_bug_summary`).

Python strings are modelled as `String` with character-level operations
(`List Char`) mirroring Python's `str.splitlines` (for the newline
character), `str.strip`, `str.startswith`, slicing `s[n:]` and `int()`.
Tracker and host state are explicit structures; every effectful call of
the Python code is recorded as an `Event` in a trace, and Python
exceptions are modelled by an `Option PyError` result component.
-/

namespace BtsSync

/-! ## Character-level string helpers (Python semantics) -/

/-- Python `str.startswith`: `startsWithL p l` is true iff `p` is an initial
segment of `l`. -/
def startsWithL : List Char → List Char → Bool
  | [], _ => true
  | _ :: _, [] => false
  | a :: as, b :: bs => a = b && startsWithL as bs

/-- Python `s.startswith(p)` on `String`s. -/
def pyStartsWith (s p : String) : Bool :=
  startsWithL p.data s.data

/-- Python slicing `s[n:]` (by characters). -/
def pyDrop (s : String) (n : Nat) : String :=
  ⟨s.data.drop n⟩

/-- Trim whitespace characters from both ends of a character list
(Python `str.strip`). -/
def trimL (l : List Char) : List Char :=
  ((l.dropWhile Char.isWhitespace).reverse.dropWhile Char.isWhitespace).reverse

/-- Python `s.strip()`. -/
def pyStrip (s : String) : String :=
  ⟨trimL s.data⟩

/-- Split a character list at newline characters; always returns at least one
(possibly empty) part. -/
def splitOnNl : List Char → List (List Char)
  | [] => [[]]
  | c :: rest =>
    if c = '\n' then [] :: splitOnNl rest
    else
      match splitOnNl rest with
      | [] => [[c]]
      | h :: t => (c :: h) :: t

/-- Python `str.splitlines()` for `\n`-separated text: empty string gives `[]`,
a trailing newline does not produce a trailing empty line. -/
def pySplitlines (s : String) : List String :=
  if s.data.isEmpty then []
  else
    let parts := splitOnNl s.data
    (if s.data.getLast? = some '\n' then parts.dropLast else parts).map
      (fun cs => ⟨cs⟩)

theorem splitOnNl_ne_nil (l : List Char) : splitOnNl l ≠ [] := by
  induction l with
  | nil => simp [splitOnNl]
  | cons c rest ih =>
    simp only [splitOnNl]
    split
    · simp
    · cases h : splitOnNl rest <;> simp

theorem splitOnNl_head (l : List Char) :
    (splitOnNl l).head? = some (l.takeWhile (· ≠ '\n')) := by
  induction l with
  | nil => simp [splitOnNl]
  | cons c rest ih =>
    by_cases hc : c = '\n'
    · subst hc
      simp [splitOnNl, List.takeWhile_cons]
    · simp only [splitOnNl, if_neg hc]
      cases h : splitOnNl rest with
      | nil => exact absurd h (splitOnNl_ne_nil rest)
      | cons p ps =>
        rw [h] at ih
        simp only [List.head?, Option.some.injEq] at ih
        simp [List.takeWhile_cons, hc, ih]

theorem splitOnNl_length_ge_two (l : List Char) (h : '\n' ∈ l) :
    2 ≤ (splitOnNl l).length := by
  induction l with
  | nil => simp at h
  | cons c rest ih =>
    simp only [splitOnNl]
    by_cases hc : c = '\n'
    · simp only [if_pos hc, List.length_cons]
      have := splitOnNl_ne_nil rest
      have : 1 ≤ (splitOnNl rest).length := by
        cases hr : splitOnNl rest
        · exact absurd hr this
        · simp
      omega
    · simp only [if_neg hc]
      have hmem : '\n' ∈ rest := by
        rcases List.mem_cons.mp h with h1 | h1
        · exact absurd h1.symm hc
        · exact h1
      cases hr : splitOnNl rest with
      | nil => exact absurd hr (splitOnNl_ne_nil rest)
      | cons p ps =>
        have := ih hmem
        rw [hr] at this
        simpa using this

/-- The first line of a nonempty string is its maximal newline-free initial
segment. -/
theorem pySplitlines_head (s : String) (h : s.data ≠ []) :
    (pySplitlines s).head? = some ⟨s.data.takeWhile (· ≠ '\n')⟩ := by
  unfold pySplitlines
  rw [if_neg (by simpa using h)]
  by_cases hl : s.data.getLast? = some '\n'
  · simp only [if_pos hl]
    have hmem : '\n' ∈ s.data := by
      rcases List.getLast?_eq_some_iff.mp hl with ⟨l, hl2⟩
      rw [hl2]; exact List.mem_concat_self l '\n'
    have hlen := splitOnNl_length_ge_two s.data hmem
    have hhd := splitOnNl_head s.data
    cases hsp : splitOnNl s.data with
    | nil => exact absurd hsp (splitOnNl_ne_nil _)
    | cons p ps =>
      rw [hsp] at hhd hlen
      simp only [List.head?, Option.some.injEq] at hhd
      cases ps with
      | nil => simp at hlen
      | cons q qs => simp [List.dropLast, hhd]
  · simp only [if_neg hl]
    have hhd := splitOnNl_head s.data
    cases hsp : splitOnNl s.data with
    | nil => exact absurd hsp (splitOnNl_ne_nil _)
    | cons p ps =>
      rw [hsp] at hhd
      simp only [List.head?, Option.some.injEq] at hhd
      simp [hhd]

/-! ## Decimal representation and Python `int()` -/

/-- Decimal digit characters of `n`, most significant first (the characters
`Nat.repr` produces). -/
def digitsOf (n : Nat) : List Char :=
  if _h : n < 10 then [Nat.digitChar n]
  else digitsOf (n / 10) ++ [Nat.digitChar (n % 10)]
decreasing_by exact Nat.div_lt_self (by omega) (by omega)

/-- Numeric value of a list of decimal digit characters. -/
def digitsVal (l : List Char) : Nat :=
  l.foldl (fun a c => 10 * a + (c.toNat - 48)) 0

theorem digitChar_isDigit : ∀ d < 10, (Nat.digitChar d).isDigit = true := by
  decide

theorem digitChar_val : ∀ d < 10, (Nat.digitChar d).toNat - 48 = d := by
  decide

theorem digitsOf_ne_nil (n : Nat) : digitsOf n ≠ [] := by
  rw [digitsOf]
  split
  · simp
  · simp

theorem digitsOf_isDigit (n : Nat) : ∀ c ∈ digitsOf n, c.isDigit = true := by
  induction n using Nat.strong_induction_on with
  | _ n ih =>
    rw [digitsOf]
    split
    · intro c hc
      simp only [List.mem_singleton] at hc
      subst hc
      exact digitChar_isDigit n (by assumption)
    · intro c hc
      rcases List.mem_append.mp hc with h | h
      · exact ih (n / 10) (Nat.div_lt_self (by omega) (by omega)) c h
      · simp only [List.mem_singleton] at h
        subst h
        exact digitChar_isDigit _ (Nat.mod_lt _ (by omega))

theorem digitsVal_digitsOf (n : Nat) : digitsVal (digitsOf n) = n := by
  induction n using Nat.strong_induction_on with
  | _ n ih =>
    rw [digitsOf]
    split
    · simp only [digitsVal, List.foldl]
      rw [digitChar_val n (by assumption)]
      omega
    · have hge : ¬ n < 10 := by assumption
      rw [digitsVal, List.foldl_append]
      have hrec := ih (n / 10) (Nat.div_lt_self (by omega) (by omega))
      rw [digitsVal] at hrec
      simp only [List.foldl, hrec]
      rw [digitChar_val (n % 10) (Nat.mod_lt _ (by omega))]
      omega

theorem toDigitsCore_eq (fuel : Nat) :
    ∀ n acc, n < fuel → Nat.toDigitsCore 10 fuel n acc = digitsOf n ++ acc := by
  induction fuel with
  | zero => intro n acc h; omega
  | succ fuel ih =>
    intro n acc h
    rw [Nat.toDigitsCore]
    by_cases hd : n / 10 = 0
    · have hlt : n < 10 := by omega
      rw [if_pos hd, digitsOf, dif_pos hlt, Nat.mod_eq_of_lt hlt]
      simp
    · have hge : ¬ n < 10 := by
        intro hlt
        exact hd (Nat.div_eq_of_lt hlt)
      rw [if_neg hd, ih (n / 10) _ (by omega)]
      conv_rhs => rw [digitsOf]
      rw [dif_neg hge]
      simp

/-- `Nat.repr` produces exactly the digit characters of `digitsOf`. -/
theorem natRepr_data (n : Nat) : (Nat.repr n).data = digitsOf n := by
  show (List.asString (Nat.toDigitsCore 10 (n + 1) n [])).data = digitsOf n
  rw [toDigitsCore_eq (n + 1) n [] (by omega)]
  simp [List.asString]

theorem isDigit_ne (c : Char) (h : c.isDigit = true) :
    c ≠ '-' ∧ c ≠ '+' ∧ c ≠ ']' ∧ c ≠ '\n' ∧ c.isWhitespace = false := by
  refine ⟨?_, ?_, ?_, ?_, ?_⟩
  · intro hc; subst hc; exact absurd h (by decide)
  · intro hc; subst hc; exact absurd h (by decide)
  · intro hc; subst hc; exact absurd h (by decide)
  · intro hc; subst hc; exact absurd h (by decide)
  · by_contra hw
    simp only [Bool.not_eq_false] at hw
    have hcases : ((c = ' ' ∨ c = '\t') ∨ c = '\r') ∨ c = '\n' := by
      simpa [Char.isWhitespace, Bool.or_eq_true, decide_eq_true_eq] using hw
    rcases hcases with ((hc | hc) | hc) | hc <;>
      (subst hc; exact absurd h (by decide))

/-- Python `int(s)`: strip whitespace, optional single sign, then a nonempty
run of decimal digits; anything else raises `ValueError` (modelled as
`none`). -/
def pyIntCore (l : List Char) : Option Int :=
  match trimL l with
  | [] => none
  | c :: rest =>
    if c = '-' then
      if rest ≠ [] ∧ rest.all Char.isDigit = true then
        some (-(digitsVal rest : Int))
      else none
    else if c = '+' then
      if rest ≠ [] ∧ rest.all Char.isDigit = true then
        some (digitsVal rest)
      else none
    else
      if (c :: rest).all Char.isDigit = true then
        some (digitsVal (c :: rest))
      else none

/-- Python `int(s)` on `String`s. -/
def pyInt? (s : String) : Option Int :=
  pyIntCore s.data

theorem dropWhile_eq_self_of (p : Char → Bool) (l : List Char)
    (h : ∀ c ∈ l, p c = false) : l.dropWhile p = l := by
  cases l with
  | nil => rfl
  | cons c rest =>
    rw [List.dropWhile_cons, h c (List.mem_cons_self c rest)]
    simp

theorem trimL_eq_self (l : List Char) (h : ∀ c ∈ l, c.isWhitespace = false) :
    trimL l = l := by
  unfold trimL
  rw [dropWhile_eq_self_of _ l h]
  rw [dropWhile_eq_self_of _ l.reverse (fun c hc => h c (List.mem_reverse.mp hc))]
  simp

theorem takeWhile_all_append (p : Char → Bool) (xs : List Char) (y : Char)
    (ys : List Char) (hxs : ∀ c ∈ xs, p c = true) (hy : p y = false) :
    (xs ++ y :: ys).takeWhile p = xs := by
  induction xs with
  | nil => simp [List.takeWhile_cons, hy]
  | cons a as ih =>
    simp [List.cons_append, List.takeWhile_cons, hxs a (List.mem_cons_self a as),
      ih (fun c hc => hxs c (List.mem_cons_of_mem a hc))]

/-- Specialisation of `takeWhile_all_append` to the `]`-delimiter scan of the
title parser. -/
theorem takeWhile_ne_rbracket (xs ys : List Char) (hxs : ∀ c ∈ xs, c ≠ ']') :
    (xs ++ ']' :: ys).takeWhile (· ≠ ']') = xs :=
  takeWhile_all_append _ xs ']' ys
    (fun c hc => by simpa using hxs c hc) (by decide)

/-- `String.append` acts as list append on the character data. -/
theorem data_append (a b : String) : (a ++ b).data = a.data ++ b.data := rfl

/-- `pyIntCore` on a raw digit string returns its value. -/
theorem pyIntCore_digits (l : List Char) (hne : l ≠ [])
    (hd : ∀ c ∈ l, c.isDigit = true) : pyIntCore l = some ((digitsVal l : Int)) := by
  have htrim : trimL l = l :=
    trimL_eq_self l (fun c hc => (isDigit_ne c (hd c hc)).2.2.2.2)
  cases l with
  | nil => exact absurd rfl hne
  | cons c rest =>
    have hcd := hd c (List.mem_cons_self c rest)
    have hne1 := isDigit_ne c hcd
    simp only [pyIntCore, htrim]
    rw [if_neg hne1.1, if_neg hne1.2.1]
    rw [if_pos (by simpa [List.all_eq_true] using hd)]

/-- The title the Reconciler writes for bug `bn` with subject `subject`
(`"[%d] %s" % (bn, summary.subject)`, main.py line 196). -/
def mkTitle (bn : Int) (subject : String) : String :=
  "[" ++ toString bn ++ "] " ++ subject

/-- The Matcher's title parser (main.py lines 132-135): the first character
must be `[`; the text before the first `]` must be a Python integer.  A
failure of any step raises inside the `try` block and is modelled as
`none`. -/
def parse_title (t : String) : Option Int :=
  match t.data with
  | [] => none
  | c :: rest => if c = '[' then pyIntCore (rest.takeWhile (· ≠ ']')) else none

theorem intRepr_data (bn : Int) :
    (toString bn).data = if bn < 0 then '-' :: digitsOf bn.natAbs else digitsOf bn.natAbs := by
  cases bn with
  | ofNat m =>
    show (Nat.repr m).data = _
    rw [if_neg (show ¬Int.ofNat m < 0 by exact (Int.ofNat_nonneg m).not_lt)]
    simpa using natRepr_data m
  | negSucc m =>
    show (("-" ++ Nat.repr (m + 1)).data) = _
    rw [if_pos (Int.negSucc_lt_zero m)]
    show ("-".data ++ (Nat.repr (m + 1)).data) = _
    rw [natRepr_data]
    rfl

/-- `pyIntCore` on a minus sign followed by digits returns the negated
value. -/
theorem pyIntCore_neg_digits (l : List Char) (hne : l ≠ [])
    (hd : ∀ c ∈ l, c.isDigit = true) :
    pyIntCore ('-' :: l) = some (-(digitsVal l : Int)) := by
  have htrim : trimL ('-' :: l) = '-' :: l := by
    apply trimL_eq_self
    intro c hc
    rcases List.mem_cons.mp hc with h | h
    · subst h; decide
    · exact (isDigit_ne c (hd c h)).2.2.2.2
  simp only [pyIntCore, htrim, if_true]
  rw [if_pos ⟨hne, by simpa [List.all_eq_true] using hd⟩]

/-- Round trip: the Matcher parses the Reconciler's own titles back to the
bug id, for every id and subject. -/
theorem parse_title_mkTitle (bn : Int) (subject : String) :
    parse_title (mkTitle bn subject) = some bn := by
  have hdata : (mkTitle bn subject).data =
      '[' :: ((toString bn).data ++ ']' :: ' ' :: subject.data) := by
    simp [mkTitle, data_append]
  have hdig : ∀ c ∈ digitsOf bn.natAbs, c ≠ ']' := fun c hc =>
    (isDigit_ne c (digitsOf_isDigit bn.natAbs c hc)).2.2.1
  unfold parse_title
  rw [hdata]
  simp only [if_pos rfl]
  rw [intRepr_data]
  by_cases hneg : bn < 0
  · rw [if_pos hneg]
    rw [show ('-' :: digitsOf bn.natAbs) ++ ']' :: ' ' :: subject.data =
          ('-' :: digitsOf bn.natAbs) ++ ']' :: (' ' :: subject.data) from rfl]
    rw [takeWhile_ne_rbracket ('-' :: digitsOf bn.natAbs) (' ' :: subject.data)
        (by
          intro c hc
          rcases List.mem_cons.mp hc with h | h
          · subst h; decide
          · exact hdig c h)]
    rw [pyIntCore_neg_digits _ (digitsOf_ne_nil _) (digitsOf_isDigit _),
      digitsVal_digitsOf]
    exact congrArg some (by omega)
  · rw [if_neg hneg]
    rw [show digitsOf bn.natAbs ++ ']' :: ' ' :: subject.data =
          digitsOf bn.natAbs ++ ']' :: (' ' :: subject.data) from rfl]
    rw [takeWhile_ne_rbracket (digitsOf bn.natAbs) (' ' :: subject.data) hdig]
    rw [pyIntCore_digits _ (digitsOf_ne_nil _) (digitsOf_isDigit _),
      digitsVal_digitsOf]
    exact congrArg some (by omega)

/-! ## Data model -/

/-- One raw message of a bug log as returned by `debianbts.get_bug_log`:
a header block and a body. -/
structure BtsMessage where
  header : String
  body : String
deriving DecidableEq

/-- One record of `debianbts.get_status`: the fields `sync_bug` reads. -/
structure BtsStatus where
  subject : String
  done : Bool
deriving DecidableEq

/-- The tracker (Debian BTS) state, as observed through the three client
calls the program makes.  Missing keys behave like empty results. -/
structure TrackerState where
  bugLists : List (String × List Int)
  statuses : List (Int × List BtsStatus)
  bugLogs : List (Int × List BtsMessage)
deriving DecidableEq

/-- `debianbts.get_bugs('package', pkg, 'archive', 'false')`. -/
def TrackerState.bugsOf (t : TrackerState) (pkg : String) : List Int :=
  (t.bugLists.lookup pkg).getD []

/-- `debianbts.get_status(bug_num)` (a list; empty means no data). -/
def TrackerState.statusOf (t : TrackerState) (bn : Int) : List BtsStatus :=
  (t.statuses.lookup bn).getD []

/-- `debianbts.get_bug_log(bug_num)`. -/
def TrackerState.logOf (t : TrackerState) (bn : Int) : List BtsMessage :=
  (t.bugLogs.lookup bn).getD []

/-- A GitHub issue as the program sees it: number, title, label names,
open/closed state and the bodies of its comments in order. -/
structure GIssue where
  number : Nat
  title : String
  labels : List String
  state : String
  comments : List String
deriving DecidableEq

/-- The GitHub-side state of one repository plus the rate-limit numbers
`Github.rate_limiting` reports. -/
structure HostState where
  labels : List String
  issues : List GIssue
  nextIssue : Nat
  remaining : Nat
  total : Nat
deriving DecidableEq

/-! ## Effects -/

/-- The sleep the Throttler performs, by policy branch
(`BugSyncer.throttle`, lines 241-251, and `throttle_abuse_limit`,
lines 253-256). -/
inductive SleepDur where
  /-- `remaining < 10`: sleep one hour. -/
  | hour : SleepDur
  /-- otherwise: sleep `total * 0.1 / remaining` seconds. -/
  | ratio (total remaining : Nat) : SleepDur
  /-- `ABUSE_THROTTLING_TIME = 5` seconds after content creation. -/
  | abuse : SleepDur
deriving DecidableEq

/-- Duration in seconds of each sleep branch. -/
def SleepDur.seconds : SleepDur → ℚ
  | .hour => 3600
  | .ratio total remaining => (total : ℚ) * (1 / 10) / (remaining : ℚ)
  | .abuse => 5

/-- `BugSyncer.throttle`: pick the sleep from the rate-limit numbers. -/
def throttleDur (remaining total : Nat) : SleepDur :=
  if remaining < 10 then .hour else .ratio total remaining

/-- Every observable action of a sync pass, in order: log lines, tracker
fetches, host fetches, host mutations and sleeps. -/
inductive Event where
  | logMsg (s : String)
  | fetchBugList (pkg : String)
  | fetchRepo (repo : String)
  | fetchLabel (name : String)
  | fetchIssueList
  | fetchSummary (bn : Int)
  | fetchBugLog (bn : Int)
  | fetchIssueComments (inum : Nat)
  | createIssue (inum : Nat) (title : String) (labels : List String)
  | createComment (inum : Nat) (body : String)
  | editIssueState (inum : Nat) (state : String)
  | sleep (d : SleepDur)
deriving DecidableEq

/-- Python exceptions that can escape the modelled code. -/
inductive PyError where
  /-- `RuntimeError("No BTS data for #%s" % bug_num)`. -/
  | runtimeError (msg : String)
  /-- `KeyError` from `OrderedDict.popitem` on an empty dict. -/
  | keyError
  /-- `IndexError` from `splitlines()[0]` on an empty comment body. -/
  | indexError
deriving DecidableEq

/-! ## Helper functions of main.py -/

/-- `extract_msg_id` (lines 68-77): first header line starting with
`Message-ID:` or `Message-Id`, with `line[11:].strip()`; `none` models the
raised `ParsingError`. -/
def extract_msg_id (header : String) : Option String :=
  (pySplitlines header).findSome? fun line =>
    if pyStartsWith line "Message-ID:" || pyStartsWith line "Message-Id" then
      some (pyStrip (pyDrop line 11))
    else none

/-- `extract_msg_author` (lines 80-83): first header line starting with
`From:`, with `line[5:].strip()`; `none` models Python's implicit `None`. -/
def extract_msg_author (header : String) : Option String :=
  (pySplitlines header).findSome? fun line =>
    if pyStartsWith line "From:" then some (pyStrip (pyDrop line 5)) else none

/-- Python `"%s" % x` for an optional string: `None` prints as `"None"`. -/
def pyStr : Option String → String
  | some a => a
  | none => "None"

/-- Python `k in d` for a dict modelled as an association list. -/
def odHasKey {κ α : Type} [DecidableEq κ] (od : List (κ × α)) (k : κ) : Bool :=
  od.any (fun p => p.1 = k)

/-- Python `d[k]` for a dict modelled as an association list. -/
def odLookup {κ α : Type} [DecidableEq κ] (od : List (κ × α)) (k : κ) :
    Option α :=
  (od.find? (fun p => p.1 = k)).map Prod.snd

/-- `OrderedDict` assignment `od[k] = v`: update in place if the key
exists, else append. -/
def odSet {κ α : Type} [DecidableEq κ] (od : List (κ × α)) (k : κ) (v : α) :
    List (κ × α) :=
  if odHasKey od k then
    od.map (fun p => if p.1 = k then (k, v) else p)
  else od ++ [(k, v)]

/-- `fetch_bug_log` (lines 86-101): build the ordered
`Message-ID -> (author, body)` dict, skipping messages whose header has no
message id (`ParsingError` is caught and the message skipped). -/
def fetch_bug_log (msgs : List BtsMessage) : List (String × Option String × String) :=
  msgs.foldl
    (fun od b =>
      match extract_msg_id b.header with
      | none => od
      | some msgId => odSet od msgId (extract_msg_author b.header, b.body))
    []

/-! ## Issue Matcher (`BugSyncer.fetch_github_issues_by_repo`, lines 117-147) -/

/-- One step of the Matcher loop over a labelled issue: parse the title,
log a duplicate if the bug id was already seen, store the issue under the
id (overwriting), or log a parse failure and continue. -/
def matcherStep (acc : List (Int × GIssue) × List Event) (issue : GIssue) :
    List (Int × GIssue) × List Event :=
  match parse_title issue.title with
  | none => (acc.1, acc.2 ++ [.logMsg ("Unable to parse " ++ issue.title)])
  | some num =>
    let logs :=
      if odHasKey acc.1 num then
        acc.2 ++ [.logMsg ("Duplicate Debian bug " ++ toString num)]
      else acc.2
    (odSet acc.1 num issue, logs)

/-- `fetch_github_issues_by_repo`: filter the repository's issues by the
sync label, then fold the per-issue parse step, yielding the
bug-id → issue mapping and the log events. -/
def fetch_github_issues_by_repo (issues : List GIssue) (syncLabel : String) :
    List (Int × GIssue) × List Event :=
  (issues.filter (fun i => i.labels.contains syncLabel)).foldl matcherStep ([], [])

/-- The Matcher's mapping component alone. -/
def matcherMap (issues : List GIssue) (syncLabel : String) : List (Int × GIssue) :=
  (fetch_github_issues_by_repo issues syncLabel).1

/-! ## Reconciler (`BugSyncer.sync_bug`, lines 176-238, and `sync`,
lines 149-174) -/

/-- Look an issue up on the host by number (`issue.get_comments()` /
`issue.state` read the server's record of the issue in a single-writer
pass). -/
def HostState.findIssue (h : HostState) (inum : Nat) : Option GIssue :=
  h.issues.find? (fun i => i.number == inum)

/-- `issue.create_comment(body)` as a host-state update. -/
def HostState.addComment (h : HostState) (inum : Nat) (body : String) : HostState :=
  { h with
      issues := h.issues.map fun i =>
        if i.number = inum then { i with comments := i.comments ++ [body] } else i }

/-- `issue.edit(state=...)` as a host-state update. -/
def HostState.setIssueState (h : HostState) (inum : Nat) (st : String) : HostState :=
  { h with
      issues := h.issues.map fun i =>
        if i.number = inum then { i with state := st } else i }

/-- The body the Reconciler writes for a mirrored comment
(`"BTS_msg_id: %s\nBTS author: %s\n\n%s" % (msg_id, author, body)`,
lines 219-220).  A Python `None` author prints as `"None"`. -/
def mkCommentBody (msgId : String) (author : Option String) (body : String) : String :=
  "BTS_msg_id: " ++ msgId ++ "\nBTS author: " ++ pyStr author ++ "\n\n" ++ body

/-- The marker scan over the issue's existing comments (lines 207-212).
`comment.body.splitlines()[0]` raises `IndexError` on an empty body.  For a
marker line the code calls `bts_bug_logs.popitem(bts_msg_id)`:
`OrderedDict.popitem(last)` pops the LAST item when its argument — here the
message id — is truthy (a nonempty string), the FIRST when it is falsy, and
raises `KeyError` on an empty dict.  The id is never used as a key. -/
def scanComments :
    List String → List (String × Option String × String) →
      Except PyError (List (String × Option String × String))
  | [], od => .ok od
  | body :: rest, od =>
    match pySplitlines body with
    | [] => .error .indexError
    | firstLine :: _ =>
      if pyStartsWith firstLine "BTS_msg_id:" then
        let btsMsgId := pyStrip (pyDrop firstLine 11)
        if od.isEmpty then .error .keyError
        else scanComments rest (if btsMsgId = "" then od.drop 1 else od.dropLast)
      else scanComments rest od

/-- Result of a per-bug step or a repository pass: host state after the
step, the events it performed, and the Python exception that escaped, if
any. -/
structure StepResult where
  host : HostState
  trace : List Event
  err : Option PyError
deriving DecidableEq

/-- Events of the comment-creation loop (lines 216-225): in dry-run each
missing comment is only logged; otherwise each body is posted and followed
by the abuse-limit sleep. -/
def commentEvents (dryrun : Bool) (inum : Nat) (bodies : List String) : List Event :=
  if dryrun then bodies.map (fun _ => .logMsg "not creating comment (dryrun)")
  else bodies.flatMap (fun b => [.createComment inum b, .sleep .abuse])

/-- Events of the state-convergence step (lines 227-238): nothing when the
states already agree; in dry-run only a log; otherwise the log, the edit
call and the abuse-limit sleep. -/
def stateTailEvents (dryrun : Bool) (inum : Nat) (cur expected : String) :
    List Event :=
  if cur = expected then []
  else if dryrun then
    [.logMsg ("not setting state to " ++ expected ++ " (dryrun)")]
  else
    [.logMsg ("setting state to " ++ expected),
     .editIssueState inum expected, .sleep .abuse]

/-- Host state after the state-convergence step. -/
def stateHost (dryrun : Bool) (h : HostState) (inum : Nat)
    (cur expected : String) : HostState :=
  if cur = expected then h
  else if dryrun then h
  else h.setIssueState inum expected

/-- Lines 201-238 of `sync_bug`, once the target issue number is known:
fetch the bug log, scan existing comments for markers, create the
remaining comments, and converge the open/closed state. -/
def sync_bug_rest (dryrun : Bool) (tracker : TrackerState) (host : HostState)
    (tr : List Event) (inum : Nat) (summary : BtsStatus) (bn : Int) : StepResult :=
  let od := fetch_bug_log (tracker.logOf bn)
  let tr := tr ++ [.fetchBugLog bn, .sleep (throttleDur host.remaining host.total),
    .logMsg ("comments on the BTS: " ++ toString od.length)]
  match host.findIssue inum with
  | none =>
    -- a PyGithub fetch of a nonexistent issue number would raise; this
    -- branch is unreachable while issue numbers are consistent
    ⟨host, tr, some (.runtimeError "issue not found")⟩
  | some issue =>
    let tr := tr ++ [.fetchIssueComments inum]
    match scanComments issue.comments od with
    | .error e => ⟨host, tr, some e⟩
    | .ok left =>
      let bodies := left.map (fun e => mkCommentBody e.1 e.2.1 e.2.2)
      let tr := tr ++ [.logMsg ("comments to be created: " ++ toString left.length)]
        ++ commentEvents dryrun inum bodies
      let host' := if dryrun then host
        else bodies.foldl (fun h b => h.addComment inum b) host
      let expected := if summary.done then "closed" else "open"
      ⟨stateHost dryrun host' inum issue.state expected,
        tr ++ stateTailEvents dryrun inum issue.state expected, none⟩

/-- `BugSyncer.sync_bug` (lines 176-238): summary fetch (a missing record
raises `RuntimeError`), throttle, issue reuse / dry-run early return /
issue creation, then `sync_bug_rest`. -/
def sync_bug (dryrun : Bool) (tracker : TrackerState) (host : HostState)
    (issuesMap : List (Int × GIssue)) (syncLabel pkg : String) (bn : Int) :
    StepResult :=
  let tr0 : List Event :=
    [.logMsg ("processing " ++ pkg ++ ": " ++ toString bn), .fetchSummary bn]
  match (tracker.statusOf bn).head? with
  | none => ⟨host, tr0, some (.runtimeError ("No BTS data for #" ++ toString bn))⟩
  | some summary =>
    let tr1 := tr0 ++ [.sleep (throttleDur host.remaining host.total)]
    match odLookup issuesMap bn with
    | some matched => sync_bug_rest dryrun tracker host tr1 matched.number summary bn
    | none =>
      if dryrun then
        ⟨host, tr1 ++ [.logMsg "not creating new issue (dry run)"], none⟩
      else
        let title := mkTitle bn summary.subject
        let newIssue : GIssue := ⟨host.nextIssue, title, [syncLabel], "open", []⟩
        let host' := { host with
          issues := host.issues ++ [newIssue], nextIssue := host.nextIssue + 1 }
        sync_bug_rest dryrun tracker host'
          (tr1 ++ [.logMsg "creating new issue",
            .createIssue newIssue.number title [syncLabel], .sleep .abuse])
          newIssue.number summary bn

/-- The fixed log/fetch events of `sync` before the sync-label lookup
(lines 152-161). -/
def syncHeaderEvents (tracker : TrackerState) (host : HostState)
    (pkg repoName syncLabel : String) : List Event :=
  [.logMsg ("Mirroring from " ++ pkg ++ " to " ++ repoName),
   .fetchBugList pkg,
   .logMsg ("bugs on the BTS: " ++ toString (tracker.bugsOf pkg).length),
   .fetchRepo repoName,
   .sleep (throttleDur host.remaining host.total),
   .fetchLabel syncLabel]

/-- The accumulator of the per-bug loop of `sync` after the label lookup
succeeded and the Matcher ran (lines 163-171): host untouched, the header,
throttle, issue-list fetch and Matcher events in the trace, no error. -/
def syncRepoHeader (tracker : TrackerState) (host : HostState)
    (pkg repoName syncLabel : String) : StepResult :=
  let m := fetch_github_issues_by_repo host.issues syncLabel
  ⟨host,
    syncHeaderEvents tracker host pkg repoName syncLabel
      ++ [.sleep (throttleDur host.remaining host.total), .fetchIssueList]
      ++ [.logMsg ("issues currently on GitHub: " ++
            toString (host.issues.filter (fun i => i.labels.contains syncLabel)).length)]
      ++ m.2
      ++ [.logMsg ("issues currently on GitHub: " ++ toString m.1.length),
          .logMsg ("issues currently on GitHub: " ++ toString m.1.length),
          .sleep (throttleDur host.remaining host.total)],
    none⟩

/-- One iteration of the per-bug loop (lines 173-174): an error from an
earlier bug has already escaped, so later bugs are not processed. -/
def syncFoldStep (dryrun : Bool) (tracker : TrackerState)
    (imap : List (Int × GIssue)) (syncLabel pkg : String)
    (acc : StepResult) (bn : Int) : StepResult :=
  match acc.err with
  | some _ => acc
  | none =>
    let r := sync_bug dryrun tracker acc.host imap syncLabel pkg bn
    ⟨r.host, acc.trace ++ r.trace, r.err⟩

/-- `BugSyncer.sync` (lines 149-174): one (package, repository) pass.  A
missing sync label aborts only this repository (logged); otherwise the
Matcher runs once on the issue list and each bug number is handed to
`sync_bug`.  An exception from `sync_bug` propagates: the remaining bugs
are not processed. -/
def syncRepo (dryrun : Bool) (tracker : TrackerState) (host : HostState)
    (pkg repoName syncLabel : String) : StepResult :=
  if host.labels.contains syncLabel then
    (tracker.bugsOf pkg).foldl
      (syncFoldStep dryrun tracker
        (fetch_github_issues_by_repo host.issues syncLabel).1 syncLabel pkg)
      (syncRepoHeader tracker host pkg repoName syncLabel)
  else
    ⟨host, syncHeaderEvents tracker host pkg repoName syncLabel ++
      [.logMsg ("Label not found: create such bug label on GitHub: " ++ syncLabel)],
      none⟩

/-- Host mutations: issue creation, comment creation, state edits. -/
def Event.isMutation : Event → Bool
  | .createIssue _ _ _ => true
  | .createComment _ _ => true
  | .editIssueState _ _ => true
  | _ => false

/-- The mutating events of a trace. -/
def mutationEvents (tr : List Event) : List Event :=
  tr.filter Event.isMutation

/-! ## Matcher lemmas -/

/-- The mapping-only step of the Matcher fold. -/
def matcherMapStep (m : List (Int × GIssue)) (i : GIssue) : List (Int × GIssue) :=
  match parse_title i.title with
  | none => m
  | some num => odSet m num i

/-- An issue the Matcher files under bug id `bn`. -/
def titleMatches (lbl : String) (bn : Int) (i : GIssue) : Bool :=
  i.labels.contains lbl && (parse_title i.title == some bn)

theorem matcherFold_fst (l : List GIssue) :
    ∀ acc : List (Int × GIssue) × List Event,
      (l.foldl matcherStep acc).1 = l.foldl matcherMapStep acc.1 := by
  induction l with
  | nil => intro acc; rfl
  | cons i rest ih =>
    intro acc
    rw [List.foldl_cons, List.foldl_cons, ih]
    congr 1
    unfold matcherStep matcherMapStep
    cases parse_title i.title <;> rfl

theorem matcherFold_logs_mono (l : List GIssue) :
    ∀ acc : List (Int × GIssue) × List Event,
      ∃ tail, (l.foldl matcherStep acc).2 = acc.2 ++ tail := by
  induction l with
  | nil => intro acc; exact ⟨[], by simp⟩
  | cons i rest ih =>
    intro acc
    obtain ⟨tail, htail⟩ := ih (matcherStep acc i)
    rw [List.foldl_cons, htail]
    unfold matcherStep
    cases parse_title i.title with
    | none =>
      exact ⟨Event.logMsg ("Unable to parse " ++ i.title) :: tail, by simp⟩
    | some num =>
      by_cases hk : odHasKey acc.1 num = true
      · exact ⟨Event.logMsg ("Duplicate Debian bug " ++ toString num) :: tail,
          by simp [hk]⟩
      · refine ⟨tail, ?_⟩
        simp only [Bool.not_eq_true] at hk
        simp [hk]

theorem odLookup_nil {κ α : Type} [DecidableEq κ] (k : κ) :
    odLookup ([] : List (κ × α)) k = none := rfl

theorem odLookup_cons {κ α : Type} [DecidableEq κ] (p : κ × α)
    (m : List (κ × α)) (k : κ) :
    odLookup (p :: m) k = if p.1 = k then some p.2 else odLookup m k := by
  unfold odLookup
  rw [List.find?_cons]
  by_cases hp : p.1 = k
  · simp [hp]
  · simp [hp]

theorem odLookup_append {κ α : Type} [DecidableEq κ] (m l : List (κ × α)) (k : κ) :
    odLookup (m ++ l) k =
      match odLookup m k with
      | some v => some v
      | none => odLookup l k := by
  induction m with
  | nil => simp [odLookup_nil]
  | cons p rest ih =>
    rw [List.cons_append, odLookup_cons, odLookup_cons]
    by_cases hp : p.1 = k
    · simp [hp]
    · simp [hp, ih]

theorem odHasKey_cons {κ α : Type} [DecidableEq κ] (p : κ × α)
    (m : List (κ × α)) (k : κ) :
    odHasKey (p :: m) k = (decide (p.1 = k) || odHasKey m k) := by
  simp [odHasKey]

theorem odHasKey_iff_lookup {κ α : Type} [DecidableEq κ] (m : List (κ × α))
    (k : κ) : odHasKey m k = (odLookup m k).isSome := by
  induction m with
  | nil => rfl
  | cons p rest ih =>
    rw [odHasKey_cons, odLookup_cons]
    by_cases hp : p.1 = k
    · simp [hp]
    · simp [hp, ih]

theorem odSet_lookup_self {κ α : Type} [DecidableEq κ]
    (m : List (κ × α)) (k : κ) (v : α) : odLookup (odSet m k v) k = some v := by
  unfold odSet
  by_cases hc : odHasKey m k = true
  · rw [if_pos hc]
    induction m with
    | nil => simp [odHasKey] at hc
    | cons p rest ih =>
      rw [List.map_cons, odLookup_cons]
      by_cases hp : p.1 = k
      · simp [hp]
      · rw [if_neg hp]
        simp only [if_neg hp]
        rw [odHasKey_cons] at hc
        rcases (by simpa using hc : p.1 = k ∨ odHasKey rest k = true) with h1 | h1
        · exact absurd h1 hp
        · exact ih h1
  · rw [if_neg hc, odLookup_append]
    have hnone : odLookup m k = none := by
      rw [odHasKey_iff_lookup] at hc
      cases h : odLookup m k
      · rfl
      · rw [h] at hc; simp at hc
    rw [hnone]
    simp [odLookup_cons]

theorem odSet_lookup_other {κ α : Type} [DecidableEq κ]
    (m : List (κ × α)) (k k' : κ) (v : α) (hne : k' ≠ k) :
    odLookup (odSet m k v) k' = odLookup m k' := by
  unfold odSet
  by_cases hc : odHasKey m k = true
  · rw [if_pos hc]
    clear hc
    induction m with
    | nil => rfl
    | cons p rest ih =>
      rw [List.map_cons, odLookup_cons, odLookup_cons]
      by_cases hp : p.1 = k
      · rw [if_pos hp]
        rw [if_neg (by simpa using (Ne.symm hne)), if_neg (hp ▸ Ne.symm hne)]
        exact ih
      · rw [if_neg hp]
        by_cases hp' : p.1 = k'
        · simp [hp']
        · rw [if_neg hp', if_neg hp', ih]
  · rw [if_neg hc, odLookup_append]
    cases h : odLookup m k'
    · simp [h, odLookup_cons, odLookup_nil, Ne.symm hne]
    · simp [h]

theorem odSet_keys_hasKey {κ α : Type} [DecidableEq κ]
    (m : List (κ × α)) (k : κ) (v : α) (hc : odHasKey m k = true) :
    (odSet m k v).map Prod.fst = m.map Prod.fst := by
  unfold odSet
  rw [if_pos hc]
  rw [List.map_map]
  apply List.map_congr_left
  intro p _
  by_cases hp : p.1 = k
  · simp [hp]
  · simp [hp]

theorem odSet_keys_nodup {κ α : Type} [DecidableEq κ]
    (m : List (κ × α)) (k : κ) (v : α) (h : (m.map Prod.fst).Nodup) :
    ((odSet m k v).map Prod.fst).Nodup := by
  by_cases hc : odHasKey m k = true
  · rw [odSet_keys_hasKey m k v hc]; exact h
  · unfold odSet
    rw [if_neg hc, List.map_append]
    have hk : k ∉ m.map Prod.fst := by
      intro hmem
      apply hc
      unfold odHasKey
      rw [List.any_eq_true]
      obtain ⟨p, hp, hpk⟩ := List.mem_map.mp hmem
      exact ⟨p, hp, by simp [hpk]⟩
    rw [List.nodup_append]
    refine ⟨h, List.nodup_singleton k, ?_⟩
    intro a ha hak
    simp only [List.map_cons, List.map_nil, List.mem_singleton] at hak
    exact hk (hak ▸ ha)

/-- The Matcher's mapping, looked up at `bn`, is the last issue (in list
order) that carries the sync label and whose title parses to `bn`. -/
theorem matcherMapFold_lookup (l : List GIssue) :
    ∀ (m : List (Int × GIssue)) (bn : Int),
      odLookup (l.foldl matcherMapStep m) bn =
        match (l.filter (fun i => decide (parse_title i.title = some bn))).getLast? with
        | some i => some i
        | none => odLookup m bn := by
  induction l with
  | nil => intro m bn; rfl
  | cons i rest ih =>
    intro m bn
    rw [List.foldl_cons, ih]
    rw [List.filter_cons]
    by_cases hp : parse_title i.title = some bn
    · rw [if_pos (by simpa using hp)]
      cases hrest : rest.filter (fun j => decide (parse_title j.title = some bn)) with
      | nil =>
        simp only [hrest, List.getLast?_singleton, List.getLast?_nil]
        unfold matcherMapStep
        rw [hp, odSet_lookup_self]
      | cons q qs =>
        rw [List.getLast?_cons_cons]
        cases hql : (q :: qs).getLast? with
        | none =>
          rw [List.getLast?_eq_none_iff] at hql
          exact absurd hql (by simp)
        | some r => simp [hql]
    · rw [if_neg (by simpa using hp)]
      congr 1
      unfold matcherMapStep
      cases hpt : parse_title i.title with
      | none => rfl
      | some n =>
        have hn : bn ≠ n := fun h => hp (h ▸ hpt)
        rw [odSet_lookup_other m n bn i hn]

theorem mem_of_getLast?_eq_some {α : Type} {l : List α} {x : α}
    (h : l.getLast? = some x) : x ∈ l := by
  obtain ⟨hne, hx⟩ := List.mem_getLast?_eq_getLast (show x ∈ l.getLast? by simp [h])
  exact hx ▸ List.getLast_mem hne

/-- The Matcher's mapping, looked up at `bn`, is the last issue in list
order that carries the sync label and parses to `bn`. -/
theorem matcherMap_lookup (issues : List GIssue) (lbl : String) (bn : Int) :
    odLookup (matcherMap issues lbl) bn =
      ((issues.filter (fun i => i.labels.contains lbl)).filter
        (fun i => decide (parse_title i.title = some bn))).getLast? := by
  unfold matcherMap fetch_github_issues_by_repo
  rw [matcherFold_fst, matcherMapFold_lookup]
  cases ((issues.filter (fun i => i.labels.contains lbl)).filter
      (fun i => decide (parse_title i.title = some bn))).getLast? with
  | none => simp [odLookup_nil]
  | some j => rfl

theorem matcherMapFold_keys_nodup (l : List GIssue) :
    ∀ m : List (Int × GIssue), (m.map Prod.fst).Nodup →
      ((l.foldl matcherMapStep m).map Prod.fst).Nodup := by
  induction l with
  | nil => intro m h; exact h
  | cons i rest ih =>
    intro m h
    rw [List.foldl_cons]
    apply ih
    unfold matcherMapStep
    cases parse_title i.title with
    | none => exact h
    | some n => exact odSet_keys_nodup m n i h

/-- The Matcher's mapping holds at most one entry per bug id. -/
theorem matcherMap_keys_nodup (issues : List GIssue) (lbl : String) :
    ((matcherMap issues lbl).map Prod.fst).Nodup := by
  unfold matcherMap fetch_github_issues_by_repo
  rw [matcherFold_fst]
  exact matcherMapFold_keys_nodup _ [] (by simp)

/-- Soundness: an issue the Matcher files under `bn` is one of the
repository's issues, carries the sync label, and has a title parsing to
`bn`. -/
theorem matcherMap_lookup_some (issues : List GIssue) (lbl : String) (bn : Int)
    (i : GIssue) (h : odLookup (matcherMap issues lbl) bn = some i) :
    i ∈ issues ∧ i.labels.contains lbl = true ∧ parse_title i.title = some bn := by
  rw [matcherMap_lookup] at h
  have hmem := mem_of_getLast?_eq_some h
  have h1 := List.mem_filter.mp hmem
  have h2 := List.mem_filter.mp h1.1
  exact ⟨h2.1, h2.2, by simpa using h1.2⟩

/-! ## Claim C3: duplicate-bug anomaly -/

/-- First-listed issue number 1 parsing to bug 42. -/
def dupIssueA : GIssue :=
  { number := 1, title := "[42] a", labels := ["bts-sync"], state := "open",
    comments := [] }

/-- Second-listed issue number 2 also parsing to bug 42. -/
def dupIssueB : GIssue :=
  { number := 2, title := "[42] b", labels := ["bts-sync"], state := "open",
    comments := [] }

/-- C3, counterexample: with two labelled issues both parsing to bug 42,
the Matcher keeps the LAST-seen issue (number 2), not the first-seen /
lowest-numbered one (number 1) — `issues[num] = issue` overwrites
(main.py line 141). -/
theorem C3_counterexample :
    (odLookup (matcherMap [dupIssueA, dupIssueB] "bts-sync") 42).map GIssue.number
        = some 2 ∧
    (odLookup (matcherMap [dupIssueA, dupIssueB] "bts-sync") 42).map GIssue.number
        ≠ some 1 := by
  constructor
  · rfl
  · decide

/-- C3, amended: for every issue list in which several issues carrying the
sync label parse to the same bug id, the Matcher returns a single entry for
that id holding the LAST-seen such issue, logs the duplicate, and (being a
total function) lets no exception escape. -/
theorem C3_matcher_last_seen_wins (xs : List GIssue) (i : GIssue) (lbl : String)
    (bn : Int) (hl : i.labels.contains lbl = true)
    (hp : parse_title i.title = some bn) :
    odLookup (matcherMap (xs ++ [i]) lbl) bn = some i ∧
    ((matcherMap (xs ++ [i]) lbl).map Prod.fst).Nodup ∧
    ((∃ j ∈ xs, j.labels.contains lbl = true ∧ parse_title j.title = some bn) →
      Event.logMsg ("Duplicate Debian bug " ++ toString bn) ∈
        (fetch_github_issues_by_repo (xs ++ [i]) lbl).2) := by
  refine ⟨?_, matcherMap_keys_nodup _ _, ?_⟩
  · rw [matcherMap_lookup]
    rw [List.filter_append, List.filter_append]
    rw [show [i].filter (fun j => j.labels.contains lbl) = [i] by
      rw [List.filter_cons, if_pos hl]; rfl]
    rw [show [i].filter (fun j => decide (parse_title j.title = some bn)) = [i] by
      rw [List.filter_cons, if_pos (by simpa using hp)]; rfl]
    rw [List.getLast?_concat]
  · intro ⟨j, hj, hjl, hjp⟩
    unfold fetch_github_issues_by_repo
    rw [List.filter_append]
    rw [show [i].filter (fun j => j.labels.contains lbl) = [i] by
      rw [List.filter_cons, if_pos hl]; rfl]
    rw [List.foldl_append]
    set acc1 := (xs.filter (fun j => j.labels.contains lbl)).foldl matcherStep
      ([], ([] : List Event)) with hacc1
    have hkey : odHasKey acc1.1 bn = true := by
      rw [odHasKey_iff_lookup, hacc1, matcherFold_fst]
      rw [matcherMapFold_lookup]
      have hjf : j ∈ (xs.filter (fun k => k.labels.contains lbl)).filter
          (fun k => decide (parse_title k.title = some bn)) := by
        rw [List.mem_filter]
        exact ⟨List.mem_filter.mpr ⟨hj, hjl⟩, by simpa using hjp⟩
      cases hlast : ((xs.filter (fun k => k.labels.contains lbl)).filter
          (fun k => decide (parse_title k.title = some bn))).getLast? with
      | none =>
        rw [List.getLast?_eq_none_iff] at hlast
        rw [hlast] at hjf
        simp at hjf
      | some r => simp
    rw [List.foldl_cons, List.foldl_nil]
    have hstep : (matcherStep acc1 i).2 =
        acc1.2 ++ [Event.logMsg ("Duplicate Debian bug " ++ toString bn)] := by
      simp only [matcherStep, hp]
      rw [if_pos hkey]
    rw [hstep]
    simp

/-- C3, witness. -/
theorem C3_witness :
    odLookup (matcherMap ([dupIssueA] ++ [dupIssueB]) "bts-sync") 42 = some dupIssueB ∧
    Event.logMsg ("Duplicate Debian bug " ++ toString (42 : Int)) ∈
      (fetch_github_issues_by_repo ([dupIssueA] ++ [dupIssueB]) "bts-sync").2 := by
  have h := C3_matcher_last_seen_wins [dupIssueA] dupIssueB "bts-sync" 42
    (by decide) (by decide)
  exact ⟨h.1, h.2.2 ⟨dupIssueA, by decide, by decide, by decide⟩⟩

/-! ## Claim C7: title round trip and malformed-title skipping -/

/-- C7: the Matcher parses `[<n>] <s>` back to `n` for every id and
subject; a title not starting with `[` parses to nothing; and an issue
whose title does not parse is skipped — the mapping is the one computed
without it, and (when it carries the sync label) a warning is logged —
without aborting the matching pass. -/
theorem C7_title_roundtrip :
    (∀ (bn : Int) (s : String), parse_title (mkTitle bn s) = some bn) ∧
    (∀ t : String, pyStartsWith t "[" = false → parse_title t = none) ∧
    (∀ (pre post : List GIssue) (i : GIssue) (lbl : String),
      parse_title i.title = none →
      matcherMap (pre ++ i :: post) lbl = matcherMap (pre ++ post) lbl ∧
      (i.labels.contains lbl = true →
        Event.logMsg ("Unable to parse " ++ i.title) ∈
          (fetch_github_issues_by_repo (pre ++ i :: post) lbl).2)) := by
  refine ⟨parse_title_mkTitle, ?_, ?_⟩
  · intro t ht
    unfold parse_title
    cases hd : t.data with
    | nil => rfl
    | cons c rest =>
      have hc : ¬ c = '[' := by
        intro he
        subst he
        have : pyStartsWith t "[" = startsWithL ['['] t.data := rfl
        rw [this, hd] at ht
        simp [startsWithL] at ht
      show (if c = '[' then pyIntCore (rest.takeWhile (· ≠ ']')) else none) = none
      rw [if_neg hc]
  · intro pre post i lbl hp
    constructor
    · unfold matcherMap fetch_github_issues_by_repo
      rw [matcherFold_fst, matcherFold_fst]
      rw [List.filter_append, List.filter_append, List.filter_cons]
      by_cases hl : i.labels.contains lbl = true
      · rw [if_pos hl]
        rw [List.foldl_append, List.foldl_append, List.foldl_cons]
        congr 1
        simp only [matcherMapStep, hp]
      · rw [if_neg (by simpa using hl)]
    · intro hl
      unfold fetch_github_issues_by_repo
      rw [List.filter_append, List.filter_cons, if_pos hl]
      rw [List.foldl_append, List.foldl_cons]
      obtain ⟨tail, htail⟩ := matcherFold_logs_mono
        (post.filter (fun j => j.labels.contains lbl))
        (matcherStep
          ((pre.filter (fun j => j.labels.contains lbl)).foldl matcherStep ([], []))
          i)
      rw [htail]
      have hstep : (matcherStep
          ((pre.filter (fun j => j.labels.contains lbl)).foldl matcherStep ([], []))
          i).2 =
          ((pre.filter (fun j => j.labels.contains lbl)).foldl matcherStep
            ([], [])).2 ++ [Event.logMsg ("Unable to parse " ++ i.title)] := by
        simp only [matcherStep, hp]
      rw [hstep]
      simp

/-- C7, witness. -/
theorem C7_witness :
    parse_title (mkTitle 7 "crash") = some 7 ∧
    parse_title "no bracket" = none ∧
    matcherMap ([dupIssueA] ++
        { number := 3, title := "oops", labels := ["bts-sync"], state := "open",
          comments := [] } :: [dupIssueB]) "bts-sync" =
      matcherMap ([dupIssueA] ++ [dupIssueB]) "bts-sync" :=
  ⟨C7_title_roundtrip.1 7 "crash",
   C7_title_roundtrip.2.1 "no bracket" (by decide),
   (C7_title_roundtrip.2.2 [dupIssueA] [dupIssueB]
     { number := 3, title := "oops", labels := ["bts-sync"], state := "open",
       comments := [] } "bts-sync" (by decide)).1⟩

/-! ## Comment-scan lemmas -/

/-- A host comment the Reconciler recognises as mirrored: its first line
starts with `BTS_msg_id:`. -/
def isMarkerComment (c : String) : Bool :=
  match pySplitlines c with
  | [] => false
  | l0 :: _ => pyStartsWith l0 "BTS_msg_id:"

/-- Number of marker comments in a comment list. -/
def markerCount (cs : List String) : Nat :=
  (cs.filter isMarkerComment).length

theorem markerCount_append (cs ds : List String) :
    markerCount (cs ++ ds) = markerCount cs + markerCount ds := by
  unfold markerCount
  rw [List.filter_append, List.length_append]

theorem pySplitlines_ne_nil (s : String) (h : s.data ≠ []) :
    pySplitlines s ≠ [] := by
  unfold pySplitlines
  rw [if_neg (by simpa using h)]
  show List.map (fun cs => String.mk cs)
      (if s.data.getLast? = some '\n' then (splitOnNl s.data).dropLast
       else splitOnNl s.data) ≠ []
  by_cases hl : s.data.getLast? = some '\n'
  · rw [if_pos hl]
    have hmem : '\n' ∈ s.data := by
      rcases List.getLast?_eq_some_iff.mp hl with ⟨l, hl2⟩
      rw [hl2]; exact List.mem_concat_self l '\n'
    have hlen := splitOnNl_length_ge_two s.data hmem
    intro hcon
    rw [List.map_eq_nil_iff] at hcon
    have := congrArg List.length hcon
    rw [List.length_dropLast] at this
    simp at this
    omega
  · rw [if_neg hl]
    intro hcon
    rw [List.map_eq_nil_iff] at hcon
    exact splitOnNl_ne_nil s.data hcon

theorem string_ne_empty_of_data {s : String} (h : s.data ≠ []) : s ≠ "" := by
  intro hcon
  exact h (by rw [hcon])

theorem data_ne_nil_of_ne_empty {s : String} (h : s ≠ "") : s.data ≠ [] := by
  intro hcon
  exact h (String.ext hcon)

/-- Directional properties of a successful marker scan: every scanned
comment body was nonempty, at most `|od|` markers were seen, the surviving
entries number `|od| - markerCount`, and they form a sublist of the
original ordered dict. -/
theorem scanComments_ok (cs : List String) :
    ∀ od left : List (String × Option String × String),
      scanComments cs od = .ok left →
      (∀ c ∈ cs, c ≠ "") ∧
      markerCount cs ≤ od.length ∧
      left.length = od.length - markerCount cs ∧
      left.Sublist od := by
  induction cs with
  | nil =>
    intro od left h
    simp only [scanComments] at h
    cases h
    exact ⟨by simp, by simp [markerCount], by simp [markerCount], List.Sublist.refl _⟩
  | cons c rest ih =>
    intro od left h
    cases hsp : pySplitlines c with
    | nil => simp [scanComments, hsp] at h
    | cons l0 t =>
      simp only [scanComments, hsp] at h
      have hcne : c ≠ "" := by
        intro hcon
        subst hcon
        simp [pySplitlines] at hsp
      by_cases hm : pyStartsWith l0 "BTS_msg_id:" = true
      · rw [if_pos hm] at h
        have hmc : markerCount (c :: rest) = markerCount rest + 1 := by
          unfold markerCount
          rw [List.filter_cons]
          rw [if_pos (by unfold isMarkerComment; rw [hsp]; exact hm)]
          simp [Nat.add_comm]
        by_cases hod : od.isEmpty = true
        · rw [if_pos hod] at h; cases h
        · rw [if_neg hod] at h
          have hodne : od ≠ [] := by simpa [List.isEmpty_iff] using hod
          have hodlen : 1 ≤ od.length := by
            cases od
            · exact absurd rfl hodne
            · simp
          set od' := if pyStrip (pyDrop l0 11) = "" then od.drop 1 else od.dropLast
            with hod'
          have hlen' : od'.length = od.length - 1 := by
            rw [hod']
            split
            · rw [List.length_drop]
            · rw [List.length_dropLast]
          have hsub' : od'.Sublist od := by
            rw [hod']
            split
            · exact List.drop_sublist 1 od
            · exact List.dropLast_sublist od
          obtain ⟨h1, h2, h3, h4⟩ := ih od' left h
          refine ⟨?_, ?_, ?_, h4.trans hsub'⟩
          · intro x hx
            rcases List.mem_cons.mp hx with hx | hx
            · exact hx ▸ hcne
            · exact h1 x hx
          · rw [hmc]; omega
          · rw [hmc, h3, hlen']; omega
      · rw [if_neg hm] at h
        have hmc : markerCount (c :: rest) = markerCount rest := by
          unfold markerCount
          rw [List.filter_cons]
          rw [if_neg (by unfold isMarkerComment; rw [hsp]; simpa using hm)]
        obtain ⟨h1, h2, h3, h4⟩ := ih od left h
        refine ⟨?_, hmc ▸ h2, hmc ▸ h3, h4⟩
        intro x hx
        rcases List.mem_cons.mp hx with hx | hx
        · exact hx ▸ hcne
        · exact h1 x hx

/-- Totality of the marker scan: when every comment body is nonempty and
the dict holds at least as many entries as there are markers, the scan
succeeds and the dict shrinks by exactly the marker count. -/
theorem scanComments_total (cs : List String) :
    ∀ od : List (String × Option String × String),
      (∀ c ∈ cs, c ≠ "") → markerCount cs ≤ od.length →
      ∃ left, scanComments cs od = .ok left ∧
        left.length = od.length - markerCount cs := by
  induction cs with
  | nil =>
    intro od _ _
    exact ⟨od, rfl, by simp [markerCount]⟩
  | cons c rest ih =>
    intro od hne hle
    have hcne := hne c (List.mem_cons_self c rest)
    cases hsp : pySplitlines c with
    | nil =>
      exact absurd hsp (pySplitlines_ne_nil c (data_ne_nil_of_ne_empty hcne))
    | cons l0 t =>
      simp only [scanComments, hsp]
      by_cases hm : pyStartsWith l0 "BTS_msg_id:" = true
      · have hmc : markerCount (c :: rest) = markerCount rest + 1 := by
          unfold markerCount
          rw [List.filter_cons]
          rw [if_pos (by unfold isMarkerComment; rw [hsp]; exact hm)]
          simp [Nat.add_comm]
        rw [hmc] at hle
        have hodne : od ≠ [] := by
          intro hcon
          subst hcon
          simp at hle
        rw [if_pos hm, if_neg (by simpa [List.isEmpty_iff] using hodne)]
        set od' := if pyStrip (pyDrop l0 11) = "" then od.drop 1 else od.dropLast
          with hod'
        have hlen' : od'.length = od.length - 1 := by
          rw [hod']
          split
          · rw [List.length_drop]
          · rw [List.length_dropLast]
        obtain ⟨left, hl1, hl2⟩ := ih od'
          (fun x hx => hne x (List.mem_cons_of_mem c hx))
          (by omega)
        refine ⟨left, hl1, ?_⟩
        rw [hl2, hmc, hlen']
        omega
      · have hmc : markerCount (c :: rest) = markerCount rest := by
          unfold markerCount
          rw [List.filter_cons]
          rw [if_neg (by unfold isMarkerComment; rw [hsp]; simpa using hm)]
        rw [if_neg hm]
        exact hmc ▸ ih od (fun x hx => hne x (List.mem_cons_of_mem c hx))
          (hmc ▸ hle)

/-! ## Mirrored-comment body lemmas -/

theorem mkCommentBody_data (msgId : String) (author : Option String)
    (body : String) :
    (mkCommentBody msgId author body).data =
      ("BTS_msg_id: ".data ++ msgId.data) ++ '\n' ::
        ("BTS author: ".data ++
          ((pyStr author).data ++ '\n' :: '\n' :: body.data)) := by
  show ((((("BTS_msg_id: " ++ msgId) ++ "\nBTS author: ") ++ pyStr author)
      ++ "\n\n") ++ body).data = _
  simp only [data_append]
  simp [List.append_assoc, List.cons_append]

theorem mkCommentBody_ne_empty (msgId : String) (author : Option String)
    (body : String) : mkCommentBody msgId author body ≠ "" := by
  intro h
  have hd := congrArg String.data h
  rw [mkCommentBody_data] at hd
  rw [show ("BTS_msg_id: ").data = 'B' :: ("TS_msg_id: ").data from rfl] at hd
  simp at hd

theorem startsWithL_self_append (p r : List Char) :
    startsWithL p (p ++ r) = true := by
  induction p with
  | nil => rfl
  | cons a as ih => simp [startsWithL, ih]

/-- The comment bodies the Reconciler writes are detected as mirrored on
the next pass, as long as the message id contains no newline. -/
theorem isMarkerComment_mkCommentBody (msgId : String) (author : Option String)
    (body : String) (h : ∀ c ∈ msgId.data, c ≠ '\n') :
    isMarkerComment (mkCommentBody msgId author body) = true := by
  have hne : (mkCommentBody msgId author body).data ≠ [] := by
    rw [mkCommentBody_data]
    rw [show ("BTS_msg_id: ").data = 'B' :: ("TS_msg_id: ").data from rfl]
    simp
  have hhd := pySplitlines_head (mkCommentBody msgId author body) hne
  have htake : (mkCommentBody msgId author body).data.takeWhile (· ≠ '\n') =
      "BTS_msg_id: ".data ++ msgId.data := by
    rw [mkCommentBody_data]
    apply takeWhile_all_append
    · have hlit : ∀ c ∈ ("BTS_msg_id: ").data, c ≠ '\n' := by decide
      intro c hc
      rcases List.mem_append.mp hc with h1 | h1
      · simpa using hlit c h1
      · simpa using h c h1
    · decide
  unfold isMarkerComment
  cases hsp : pySplitlines (mkCommentBody msgId author body) with
  | nil => exact absurd hsp (pySplitlines_ne_nil _ hne)
  | cons l0 t =>
    rw [hsp] at hhd
    simp only [List.head?, Option.some.injEq] at hhd
    rw [hhd, htake]
    show startsWithL ("BTS_msg_id:").data
      (("BTS_msg_id: ").data ++ msgId.data) = true
    rw [show ("BTS_msg_id: ").data =
        ("BTS_msg_id:").data ++ [' '] from rfl]
    rw [List.append_assoc]
    exact startsWithL_self_append _ _

/-! ## Newline-freedom of bug-log message ids -/

theorem splitOnNl_no_nl (l : List Char) :
    ∀ part ∈ splitOnNl l, '\n' ∉ part := by
  induction l with
  | nil =>
    intro part hp
    simp [splitOnNl] at hp
    simp [hp]
  | cons c rest ih =>
    intro part hp
    simp only [splitOnNl] at hp
    by_cases hc : c = '\n'
    · rw [if_pos hc] at hp
      rcases List.mem_cons.mp hp with h1 | h1
      · simp [h1]
      · exact ih part h1
    · rw [if_neg hc] at hp
      cases hr : splitOnNl rest with
      | nil => exact absurd hr (splitOnNl_ne_nil rest)
      | cons q qs =>
        rw [hr] at hp
        rcases List.mem_cons.mp hp with h1 | h1
        · subst h1
          intro hmem
          rcases List.mem_cons.mp hmem with h2 | h2
          · exact hc h2.symm
          · exact ih q (hr ▸ List.mem_cons_self q qs) h2
        · exact ih part (hr ▸ List.mem_cons_of_mem q h1)

theorem pySplitlines_no_nl (s : String) :
    ∀ line ∈ pySplitlines s, ∀ c ∈ line.data, c ≠ '\n' := by
  intro line hline c hc
  unfold pySplitlines at hline
  by_cases he : s.data.isEmpty
  · rw [if_pos he] at hline; simp at hline
  · rw [if_neg he] at hline
    obtain ⟨cs, hcs, hcseq⟩ := List.mem_map.mp hline
    have hcs2 : cs ∈ splitOnNl s.data := by
      by_cases hl : s.data.getLast? = some '\n'
      · rw [if_pos hl] at hcs
        exact List.dropLast_subset _ hcs
      · rw [if_neg hl] at hcs
        exact hcs
    intro hceq
    subst hceq
    exact splitOnNl_no_nl s.data cs hcs2 (by rw [← hcseq] at hc; exact hc)

theorem mem_of_mem_trimL (l : List Char) (c : Char) (h : c ∈ trimL l) :
    c ∈ l := by
  unfold trimL at h
  rw [List.mem_reverse] at h
  have h1 := (List.dropWhile_sublist _).subset h
  rw [List.mem_reverse] at h1
  exact (List.dropWhile_sublist _).subset h1

/-- Every message id `extract_msg_id` produces is a piece of one header
line and therefore newline-free. -/
theorem extract_msg_id_no_nl (header msgId : String)
    (h : extract_msg_id header = some msgId) : ∀ c ∈ msgId.data, c ≠ '\n' := by
  unfold extract_msg_id at h
  obtain ⟨line, hline, hf⟩ := List.exists_of_findSome?_eq_some h
  intro c hc
  by_cases hm : (pyStartsWith line "Message-ID:" || pyStartsWith line "Message-Id") = true
  · rw [if_pos hm] at hf
    cases hf
    apply pySplitlines_no_nl header line hline c
    unfold pyStrip pyDrop at hc
    exact List.mem_of_mem_drop (mem_of_mem_trimL _ _ hc)
  · rw [if_neg hm] at hf
    cases hf

/-- All keys of the ordered bug-log dict are newline-free. -/
theorem fetch_bug_log_keys_no_nl (msgs : List BtsMessage) :
    ∀ p ∈ fetch_bug_log msgs, ∀ c ∈ p.1.data, c ≠ '\n' := by
  unfold fetch_bug_log
  suffices hgen : ∀ od : List (String × Option String × String),
      (∀ p ∈ od, ∀ c ∈ p.1.data, c ≠ '\n') →
      ∀ p ∈ msgs.foldl
        (fun od b =>
          match extract_msg_id b.header with
          | none => od
          | some msgId => odSet od msgId (extract_msg_author b.header, b.body))
        od, ∀ c ∈ p.1.data, c ≠ '\n' by
    exact hgen [] (by simp)
  induction msgs with
  | nil => intro od hod; simpa using hod
  | cons b rest ih =>
    intro od hod
    rw [List.foldl_cons]
    cases hid : extract_msg_id b.header with
    | none => exact ih od hod
    | some msgId =>
      refine ih _ ?_
      show ∀ p ∈ odSet od msgId (extract_msg_author b.header, b.body),
        ∀ c ∈ p.1.data, c ≠ '\n'
      intro p hp
      unfold odSet at hp
      by_cases hk : odHasKey od msgId = true
      · rw [if_pos hk] at hp
        obtain ⟨q, hq, hqe⟩ := List.mem_map.mp hp
        by_cases hq1 : q.1 = msgId
        · rw [if_pos hq1] at hqe
          subst hqe
          exact extract_msg_id_no_nl b.header msgId hid
        · rw [if_neg hq1] at hqe
          subst hqe
          exact hod q hq
      · rw [if_neg hk] at hp
        rcases List.mem_append.mp hp with h1 | h1
        · exact hod p h1
        · rw [List.mem_singleton] at h1
          subst h1
          exact extract_msg_id_no_nl b.header msgId hid

/-! ## Host-state lookup lemmas -/

theorem findIssue_map_numpres (h : HostState) (f : GIssue → GIssue)
    (hf : ∀ i, (f i).number = i.number) (n : Nat) :
    HostState.findIssue { h with issues := h.issues.map f } n =
      (h.findIssue n).map f := by
  unfold HostState.findIssue
  simp only
  rw [List.find?_map]
  have hp : ((fun i : GIssue => i.number == n) ∘ f) =
      (fun i : GIssue => i.number == n) := by
    funext i
    simp [Function.comp, hf i]
  rw [hp]

theorem findIssue_addComment (h : HostState) (inum n : Nat) (b : String) :
    (h.addComment inum b).findIssue n =
      (h.findIssue n).map
        (fun i => if i.number = inum
          then { i with comments := i.comments ++ [b] } else i) := by
  unfold HostState.addComment
  apply findIssue_map_numpres
  intro i
  by_cases hi : i.number = inum <;> simp [hi]

theorem findIssue_setIssueState (h : HostState) (inum n : Nat) (st : String) :
    (h.setIssueState inum st).findIssue n =
      (h.findIssue n).map
        (fun i => if i.number = inum then { i with state := st } else i) := by
  unfold HostState.setIssueState
  apply findIssue_map_numpres
  intro i
  by_cases hi : i.number = inum <;> simp [hi]

/-- A found issue satisfies the search predicate. -/
theorem findIssue_number (h : HostState) (n : Nat) (i : GIssue)
    (hf : h.findIssue n = some i) : i.number = n := by
  unfold HostState.findIssue at hf
  have := List.find?_some hf
  simpa using this

/-- The comment-creation fold (`for ...: issue.create_comment(...)`) leaves
every other issue unchanged and appends the bodies, in order, to the
target issue's comments. -/
theorem findIssue_addComments (bodies : List String) :
    ∀ (h : HostState) (inum n : Nat),
      (bodies.foldl (fun hh b => hh.addComment inum b) h).findIssue n =
        (h.findIssue n).map
          (fun i => if i.number = inum
            then { i with comments := i.comments ++ bodies } else i) := by
  induction bodies with
  | nil =>
    intro h inum n
    simp only [List.foldl_nil]
    cases hf : h.findIssue n with
    | none => rfl
    | some i =>
      by_cases hi : i.number = inum
      · simp only [Option.map_some', if_pos hi, List.append_nil]
      · simp [hi]
  | cons b rest ih =>
    intro h inum n
    rw [List.foldl_cons, ih, findIssue_addComment]
    cases hf : h.findIssue n with
    | none => rfl
    | some i =>
      by_cases hi : i.number = inum
      · simp [hi]
      · simp [hi]

/-! ## Event classification -/

/-- Issue-state edits. -/
def Event.isEdit : Event → Bool
  | .editIssueState _ _ => true
  | _ => false

/-- Comment creations. -/
def Event.isCreateComment : Event → Bool
  | .createComment _ _ => true
  | _ => false

theorem mutationEvents_append (l1 l2 : List Event) :
    mutationEvents (l1 ++ l2) = mutationEvents l1 ++ mutationEvents l2 := by
  unfold mutationEvents
  rw [List.filter_append]

theorem commentEvents_dry_no_mutation (inum : Nat) (bodies : List String) :
    mutationEvents (commentEvents true inum bodies) = [] := by
  unfold commentEvents mutationEvents
  rw [if_pos rfl]
  induction bodies with
  | nil => rfl
  | cons b rest ih =>
    rw [List.map_cons, List.filter_cons]
    simp only [Event.isMutation, Bool.false_eq_true, if_neg]
    exact ih

theorem commentEvents_false_filter (inum : Nat) (bodies : List String)
    (p : Event → Bool) (hc : ∀ b, p (Event.createComment inum b) = false)
    (hs : p (Event.sleep .abuse) = false) :
    (commentEvents false inum bodies).filter p = [] := by
  unfold commentEvents
  rw [if_neg (by simp)]
  induction bodies with
  | nil => rfl
  | cons b rest ih =>
    rw [List.flatMap_cons, List.filter_append, ih]
    simp [List.filter_cons, hc b, hs]

/-! ## Claim C6: state convergence -/

/-- C6: for a synced bug (summary fetched, issue matched, marker scan
succeeded, normal mode), the target state is `closed` iff the bug is
resolved; `edit_issue_state` is emitted exactly once — to the target —
when the issue's current state differs from the target and not at all when
they agree; and afterwards the issue's state on the host equals the
target. -/
theorem C6_state_convergence (tracker : TrackerState) (host : HostState)
    (issuesMap : List (Int × GIssue)) (syncLabel pkg : String) (bn : Int)
    (summary : BtsStatus) (matched issue : GIssue)
    (left : List (String × Option String × String))
    (hst : (tracker.statusOf bn).head? = some summary)
    (hmap : odLookup issuesMap bn = some matched)
    (hfind : host.findIssue matched.number = some issue)
    (hscan : scanComments issue.comments (fetch_bug_log (tracker.logOf bn)) =
      .ok left) :
    ((if summary.done then "closed" else "open") = "closed" ↔ summary.done = true) ∧
    (sync_bug false tracker host issuesMap syncLabel pkg bn).err = none ∧
    (sync_bug false tracker host issuesMap syncLabel pkg bn).trace.filter
        Event.isEdit =
      (if issue.state = (if summary.done then "closed" else "open") then []
       else [Event.editIssueState matched.number
              (if summary.done then "closed" else "open")]) ∧
    ((sync_bug false tracker host issuesMap syncLabel pkg bn).host.findIssue
        matched.number).map GIssue.state =
      some (if summary.done then "closed" else "open") := by
  have hnum : issue.number = matched.number :=
    findIssue_number host matched.number issue hfind
  refine ⟨by cases summary.done <;> simp, ?_⟩
  simp only [sync_bug, sync_bug_rest, hst, hmap, hfind, hscan]
  refine ⟨?_, ?_, ?_⟩
  · trivial
  · simp only [List.filter_append]
    rw [commentEvents_false_filter _ _ _ (fun b => rfl) rfl]
    unfold stateTailEvents
    by_cases hstate : issue.state = (if summary.done then "closed" else "open")
    · rw [if_pos hstate]
      simp [Event.isEdit, hstate]
    · rw [if_neg hstate]
      simp [Event.isEdit, hstate]
  · unfold stateHost
    by_cases hstate : issue.state = (if summary.done then "closed" else "open")
    · rw [if_pos hstate]
      simp only [Bool.false_eq_true, if_false]
      rw [findIssue_addComments, hfind]
      simp [hnum, hstate]
    · rw [if_neg hstate]
      simp only [Bool.false_eq_true, if_false]
      rw [findIssue_setIssueState, findIssue_addComments, hfind]
      simp [hnum]

/-- C6, witness: a resolved bug whose issue is currently open gets exactly
one `edit_issue_state(..., closed)` and ends up closed. -/
theorem C6_witness :
    (sync_bug false
        ⟨[("pkg", [6])], [(6, [⟨"w", true⟩])], [(6, [])]⟩
        ⟨["bts"], [⟨4, "[6] w", ["bts"], "open", []⟩], 5, 100, 1000⟩
        [(6, ⟨4, "[6] w", ["bts"], "open", []⟩)] "bts" "pkg" 6).trace.filter
      Event.isEdit = [Event.editIssueState 4 "closed"] := by
  have h := C6_state_convergence
    ⟨[("pkg", [6])], [(6, [⟨"w", true⟩])], [(6, [])]⟩
    ⟨["bts"], [⟨4, "[6] w", ["bts"], "open", []⟩], 5, 100, 1000⟩
    [(6, ⟨4, "[6] w", ["bts"], "open", []⟩)] "bts" "pkg" 6
    ⟨"w", true⟩ ⟨4, "[6] w", ["bts"], "open", []⟩ ⟨4, "[6] w", ["bts"], "open", []⟩
    [] rfl rfl rfl rfl
  rw [h.2.2.1]
  decide

/-! ## Claim C8: mirrored-comment wire format -/

theorem createComment_not_mem_stateTail (dr : Bool) (inum : Nat)
    (cur expected : String) (n : Nat) (b : String) :
    Event.createComment n b ∉ stateTailEvents dr inum cur expected := by
  unfold stateTailEvents
  split
  · simp
  · split <;> simp

/-- Any comment body posted by `sync_bug_rest` either was already in the
incoming trace or is the rendering of one entry of the fetched bug log. -/
theorem sync_bug_rest_createComment (dr : Bool) (tracker : TrackerState)
    (host : HostState) (tr : List Event) (inum : Nat) (summary : BtsStatus)
    (bn : Int) (n : Nat) (b : String)
    (hmem : Event.createComment n b ∈
      (sync_bug_rest dr tracker host tr inum summary bn).trace) :
    Event.createComment n b ∈ tr ∨
      ∃ e ∈ fetch_bug_log (tracker.logOf bn),
        b = mkCommentBody e.1 e.2.1 e.2.2 := by
  unfold sync_bug_rest at hmem
  cases hfind : host.findIssue inum with
  | none =>
    simp only [hfind] at hmem
    simp at hmem
    exact Or.inl hmem
  | some issue =>
    cases hscan : scanComments issue.comments (fetch_bug_log (tracker.logOf bn)) with
    | error e =>
      simp only [hfind, hscan] at hmem
      simp at hmem
      exact Or.inl hmem
    | ok left =>
      simp only [hfind, hscan] at hmem
      have hsub := (scanComments_ok issue.comments _ left hscan).2.2.2
      have hce : Event.createComment n b ∈
          commentEvents dr inum (left.map (fun e => mkCommentBody e.1 e.2.1 e.2.2)) →
          ∃ e ∈ fetch_bug_log (tracker.logOf bn),
            b = mkCommentBody e.1 e.2.1 e.2.2 := by
        intro hm
        unfold commentEvents at hm
        split at hm
        · simp at hm
        · rw [List.mem_flatMap] at hm
          obtain ⟨bb, hbb, hin⟩ := hm
          obtain ⟨entry, hentry, hbeq⟩ := List.mem_map.mp hbb
          refine ⟨entry, hsub.subset hentry, ?_⟩
          simp at hin
          rw [hin.2]
          exact hbeq.symm
      simp [createComment_not_mem_stateTail] at hmem
      rcases hmem with hmem | hmem
      · exact Or.inl hmem
      · exact Or.inr (hce hmem)

/-- Any comment body posted by `sync_bug` is the rendering of one entry of
the fetched bug log. -/
theorem sync_bug_createComment (dr : Bool) (tracker : TrackerState)
    (host : HostState) (imap : List (Int × GIssue)) (lbl pkg : String)
    (bn : Int) (n : Nat) (b : String)
    (hmem : Event.createComment n b ∈
      (sync_bug dr tracker host imap lbl pkg bn).trace) :
    ∃ e ∈ fetch_bug_log (tracker.logOf bn),
      b = mkCommentBody e.1 e.2.1 e.2.2 := by
  unfold sync_bug at hmem
  cases hst : (tracker.statusOf bn).head? with
  | none => simp [hst] at hmem
  | some summary =>
    simp only [hst] at hmem
    cases hlk : odLookup imap bn with
    | some matched =>
      simp only [hlk] at hmem
      rcases sync_bug_rest_createComment _ _ _ _ _ _ _ _ _ hmem with h | h
      · simp at h
      · exact h
    | none =>
      simp only [hlk] at hmem
      split at hmem
      · simp at hmem
      · rcases sync_bug_rest_createComment _ _ _ _ _ _ _ _ _ hmem with h | h
        · simp at h
        · exact h

/-- C8, amended: every host comment the Reconciler creates is
`BTS_msg_id: <id>`, newline, `BTS author: <author>` — where a missing
tracker author renders as the literal string `"None"`, not as empty —
then a blank line and the original body verbatim. -/
theorem C8_mirrored_comment_format :
    (∀ (dr : Bool) (tracker : TrackerState) (host : HostState)
        (imap : List (Int × GIssue)) (lbl pkg : String) (bn : Int)
        (n : Nat) (b : String),
      Event.createComment n b ∈ (sync_bug dr tracker host imap lbl pkg bn).trace →
      ∃ e ∈ fetch_bug_log (tracker.logOf bn),
        b = "BTS_msg_id: " ++ e.1 ++ "\nBTS author: " ++ pyStr e.2.1
          ++ "\n\n" ++ e.2.2) ∧
    pyStr none = "None" ∧ (∀ a, pyStr (some a) = a) := by
  refine ⟨?_, rfl, fun a => rfl⟩
  intro dr tracker host imap lbl pkg bn n b hmem
  exact sync_bug_createComment dr tracker host imap lbl pkg bn n b hmem

/-- Tracker with one bug whose sole log message has no `From:` header. -/
def noAuthorTracker : TrackerState :=
  ⟨[("pkg", [3])], [(3, [⟨"z", false⟩])], [(3, [⟨"Message-ID: q1", "body"⟩])]⟩

/-- Host with the matching issue already present. -/
def noAuthorHost : HostState :=
  ⟨["bts"], [⟨1, "[3] z", ["bts"], "open", []⟩], 2, 100, 1000⟩

/-- C8, counterexample: when the tracker comment has no author, the second
line of the created comment is the literal `BTS author: None` — Python's
`"%s" % None` — not the empty-author line `BTS author: ` the claim
requires. -/
theorem C8_counterexample :
    (sync_bug false noAuthorTracker noAuthorHost
        [(3, ⟨1, "[3] z", ["bts"], "open", []⟩)] "bts" "pkg" 3).trace.filterMap
      (fun e => match e with | .createComment _ b => some b | _ => none) =
      ["BTS_msg_id: q1\nBTS author: None\n\nbody"] ∧
    (pySplitlines "BTS_msg_id: q1\nBTS author: None\n\nbody").get? 1 =
      some "BTS author: None" ∧
    (pySplitlines "BTS_msg_id: q1\nBTS author: None\n\nbody").get? 1 ≠
      some "BTS author: " := by
  refine ⟨?_, by decide, by decide⟩
  decide

/-- C8, witness. -/
theorem C8_witness :
    ∃ e ∈ fetch_bug_log (noAuthorTracker.logOf 3),
      "BTS_msg_id: q1\nBTS author: None\n\nbody" =
        "BTS_msg_id: " ++ e.1 ++ "\nBTS author: " ++ pyStr e.2.1
          ++ "\n\n" ++ e.2.2 :=
  C8_mirrored_comment_format.1 false noAuthorTracker noAuthorHost
    [(3, ⟨1, "[3] z", ["bts"], "open", []⟩)] "bts" "pkg" 3 1
    "BTS_msg_id: q1\nBTS author: None\n\nbody" (by decide)

/-! ## Claim C9: throttler policy -/

/-- Every mutating event is immediately followed by the abuse-limit
sleep. -/
def abusePaired : List Event → Bool
  | [] => true
  | [e] => !e.isMutation
  | e1 :: e2 :: rest =>
    (!e1.isMutation || (e2 = Event.sleep .abuse)) && abusePaired (e2 :: rest)

/-- A trace segment whose mutations are each followed by the abuse sleep
and which does not end in a mutation. -/
def goodSeg (l : List Event) : Prop :=
  abusePaired l = true ∧ ∀ e, l.getLast? = some e → e.isMutation = false

theorem goodSeg_nil : goodSeg [] := ⟨rfl, by simp⟩

theorem abusePaired_cons_cons (e1 e2 : Event) (rest : List Event) :
    abusePaired (e1 :: e2 :: rest) =
      ((!e1.isMutation || (e2 = Event.sleep .abuse)) &&
        abusePaired (e2 :: rest)) := rfl

theorem goodSeg_of_no_mutation (l : List Event)
    (h : ∀ e ∈ l, e.isMutation = false) : goodSeg l := by
  constructor
  · induction l with
    | nil => rfl
    | cons e rest ih =>
      cases rest with
      | nil =>
        simp [abusePaired, h e (List.mem_cons_self e [])]
      | cons f fs =>
        rw [abusePaired_cons_cons, Bool.and_eq_true]
        refine ⟨?_, ih (fun x hx => h x (List.mem_cons_of_mem e hx))⟩
        rw [h e (List.mem_cons_self e _)]
        simp
  · intro e he
    exact h e ((List.getLast?_eq_some_iff.mp he).elim
      (fun l' hl' => hl' ▸ List.mem_concat_self l' e))

theorem goodSeg_append (l1 l2 : List Event) (h1 : goodSeg l1)
    (h2 : goodSeg l2) : goodSeg (l1 ++ l2) := by
  obtain ⟨ha1, hl1⟩ := h1
  obtain ⟨ha2, hl2⟩ := h2
  constructor
  · clear hl2
    induction l1 with
    | nil => simpa using ha2
    | cons e rest ih =>
      cases rest with
      | nil =>
        cases l2 with
        | nil => simpa using ha1
        | cons f fs =>
          rw [List.singleton_append, abusePaired_cons_cons]
          have he : e.isMutation = false := hl1 e rfl
          rw [he]
          simpa using ha2
      | cons g gs =>
        rw [List.cons_append, List.cons_append, abusePaired_cons_cons]
        rw [abusePaired_cons_cons] at ha1
        rw [Bool.and_eq_true] at ha1
        rw [← List.cons_append]
        rw [ih ha1.2 (fun x hx => hl1 x (by
          rw [List.getLast?_cons_cons]
          exact hx))]
        simp only [Bool.and_true]
        exact ha1.1
  · intro e he
    rw [List.getLast?_append] at he
    cases hl2' : l2.getLast? with
    | none =>
      rw [hl2', Option.none_or] at he
      exact hl1 e he
    | some f =>
      rw [hl2'] at he
      simp at he
      exact he ▸ hl2 f hl2'

theorem goodSeg_commentEvents_false (inum : Nat) (bodies : List String) :
    goodSeg (commentEvents false inum bodies) := by
  unfold commentEvents
  rw [if_neg (by simp)]
  induction bodies with
  | nil => exact goodSeg_nil
  | cons b rest ih =>
    rw [List.flatMap_cons]
    apply goodSeg_append
    · refine ⟨rfl, ?_⟩
      intro e he
      simp at he
      rw [← he]
      rfl
    · exact ih

theorem goodSeg_commentEvents (dr : Bool) (inum : Nat) (bodies : List String) :
    goodSeg (commentEvents dr inum bodies) := by
  cases dr with
  | false => exact goodSeg_commentEvents_false inum bodies
  | true =>
    apply goodSeg_of_no_mutation
    intro e he
    unfold commentEvents at he
    rw [if_pos rfl] at he
    obtain ⟨b, _, hbe⟩ := List.mem_map.mp he
    rw [← hbe]
    rfl

theorem goodSeg_stateTailEvents (dr : Bool) (inum : Nat)
    (cur expected : String) : goodSeg (stateTailEvents dr inum cur expected) := by
  unfold stateTailEvents
  split
  · exact goodSeg_nil
  · split
    · exact goodSeg_of_no_mutation _ (by intro e he; simp at he; rw [he]; rfl)
    · refine ⟨rfl, ?_⟩
      intro e he
      simp at he
      rw [← he]
      rfl

theorem matcherFold_logs_no_mutation (l : List GIssue) :
    ∀ acc : List (Int × GIssue) × List Event,
      (∀ e ∈ acc.2, e.isMutation = false) →
      ∀ e ∈ (l.foldl matcherStep acc).2, e.isMutation = false := by
  induction l with
  | nil => intro acc h; exact h
  | cons i rest ih =>
    intro acc h
    rw [List.foldl_cons]
    apply ih
    intro e he
    unfold matcherStep at he
    cases hp : parse_title i.title with
    | none =>
      simp only [hp] at he
      rcases List.mem_append.mp he with h1 | h1
      · exact h e h1
      · simp at h1; rw [h1]; rfl
    | some num =>
      simp only [hp] at he
      by_cases hk : odHasKey acc.1 num = true
      · rw [if_pos hk] at he
        rcases List.mem_append.mp he with h1 | h1
        · exact h e h1
        · simp at h1; rw [h1]; rfl
      · rw [if_neg hk] at he
        exact h e he

theorem sync_bug_rest_goodSeg (dr : Bool) (tracker : TrackerState)
    (host : HostState) (tr : List Event) (inum : Nat) (summary : BtsStatus)
    (bn : Int) (htr : goodSeg tr) :
    goodSeg (sync_bug_rest dr tracker host tr inum summary bn).trace := by
  unfold sync_bug_rest
  have hfix3 : goodSeg [Event.fetchBugLog bn,
      Event.sleep (throttleDur host.remaining host.total),
      Event.logMsg ("comments on the BTS: " ++
        toString (fetch_bug_log (tracker.logOf bn)).length)] := by
    apply goodSeg_of_no_mutation
    intro e he
    simp at he
    rcases he with h | h | h <;> (subst h; rfl)
  cases hfind : host.findIssue inum with
  | none =>
    simp only [hfind]
    exact goodSeg_append _ _ htr hfix3
  | some issue =>
    cases hscan : scanComments issue.comments (fetch_bug_log (tracker.logOf bn))
      with
    | error e =>
      simp only [hfind, hscan]
      apply goodSeg_append
      · exact goodSeg_append _ _ htr hfix3
      · exact goodSeg_of_no_mutation _ (by intro e he; simp at he; subst he; rfl)
    | ok left =>
      simp only [hfind, hscan]
      apply goodSeg_append
      · apply goodSeg_append
        · apply goodSeg_append
          · apply goodSeg_append
            · exact goodSeg_append _ _ htr hfix3
            · exact goodSeg_of_no_mutation _
                (by intro e he; simp at he; subst he; rfl)
          · exact goodSeg_of_no_mutation _
              (by intro e he; simp at he; subst he; rfl)
        · exact goodSeg_commentEvents dr inum _
      · exact goodSeg_stateTailEvents dr inum issue.state _

theorem sync_bug_goodSeg (dr : Bool) (tracker : TrackerState)
    (host : HostState) (imap : List (Int × GIssue)) (lbl pkg : String)
    (bn : Int) : goodSeg (sync_bug dr tracker host imap lbl pkg bn).trace := by
  have htr0 : goodSeg [Event.logMsg ("processing " ++ pkg ++ ": " ++ toString bn),
      Event.fetchSummary bn] := by
    apply goodSeg_of_no_mutation
    intro e he
    simp at he
    rcases he with h | h <;> (subst h; rfl)
  cases hst : (tracker.statusOf bn).head? with
  | none =>
    simp only [sync_bug, hst]
    exact htr0
  | some summary =>
    have htr1 : goodSeg ([Event.logMsg ("processing " ++ pkg ++ ": " ++ toString bn),
        Event.fetchSummary bn] ++
        [Event.sleep (throttleDur host.remaining host.total)]) := by
      apply goodSeg_append _ _ htr0
      exact goodSeg_of_no_mutation _ (by intro e he; simp at he; subst he; rfl)
    cases hlk : odLookup imap bn with
    | some matched =>
      simp only [sync_bug, hst, hlk]
      exact sync_bug_rest_goodSeg _ _ _ _ _ _ _ htr1
    | none =>
      simp only [sync_bug, hst, hlk]
      split
      · apply goodSeg_append _ _ htr1
        exact goodSeg_of_no_mutation _ (by intro e he; simp at he; subst he; rfl)
      · apply sync_bug_rest_goodSeg
        apply goodSeg_append _ _ htr1
        refine ⟨by simp [abusePaired, Event.isMutation], ?_⟩
        intro e he
        simp at he
        rw [← he]
        rfl

theorem syncRepo_goodSeg (dr : Bool) (tracker : TrackerState)
    (host : HostState) (pkg repo lbl : String) :
    goodSeg (syncRepo dr tracker host pkg repo lbl).trace := by
  have hhdr : goodSeg (syncHeaderEvents tracker host pkg repo lbl) := by
    apply goodSeg_of_no_mutation
    intro e he
    unfold syncHeaderEvents at he
    simp at he
    rcases he with h | h | h | h | h | h <;> (subst h; rfl)
  unfold syncRepo
  split
  · have hstart : goodSeg (syncRepoHeader tracker host pkg repo lbl).trace := by
      unfold syncRepoHeader
      apply goodSeg_append
      · apply goodSeg_append
        · apply goodSeg_append
          · apply goodSeg_append _ _ hhdr
            exact goodSeg_of_no_mutation _
              (by intro e he; simp at he; rcases he with h | h <;> (subst h; rfl))
          · exact goodSeg_of_no_mutation _
              (by intro e he; simp at he; subst he; rfl)
        · apply goodSeg_of_no_mutation
          exact matcherFold_logs_no_mutation _ ([], []) (by simp)
      · exact goodSeg_of_no_mutation _
          (by intro e he; fin_cases he <;> rfl)
    suffices h : ∀ (bugs : List Int) (acc : StepResult), goodSeg acc.trace →
        goodSeg ((bugs.foldl (syncFoldStep dr tracker
          (fetch_github_issues_by_repo host.issues lbl).1 lbl pkg) acc)).trace by
      exact h _ _ hstart
    intro bugs
    induction bugs with
    | nil => intro acc h; exact h
    | cons bn rest ih =>
      intro acc h
      rw [List.foldl_cons]
      apply ih
      unfold syncFoldStep
      cases acc.err with
      | some e => exact h
      | none => exact goodSeg_append _ _ h (sync_bug_goodSeg _ _ _ _ _ _ _)
  · apply goodSeg_append _ _ hhdr
    exact goodSeg_of_no_mutation _ (by intro e he; simp at he; subst he; rfl)

/-- C9, counterexample: in a run that creates a comment, the comment
creation is followed only by the fixed 5-second abuse sleep — not by the
quota-policy sleep the claim requires after every host call — and the host
call that lists the issue's comments is followed by no sleep at all. -/
theorem C9_counterexample :
    (sync_bug false noAuthorTracker noAuthorHost
        [(3, ⟨1, "[3] z", ["bts"], "open", []⟩)] "bts" "pkg" 3).trace.get? 8 =
      some (Event.createComment 1 "BTS_msg_id: q1\nBTS author: None\n\nbody") ∧
    (sync_bug false noAuthorTracker noAuthorHost
        [(3, ⟨1, "[3] z", ["bts"], "open", []⟩)] "bts" "pkg" 3).trace.get? 9 =
      some (Event.sleep .abuse) ∧
    Event.sleep SleepDur.abuse ≠
      Event.sleep (throttleDur noAuthorHost.remaining noAuthorHost.total) ∧
    (sync_bug false noAuthorTracker noAuthorHost
        [(3, ⟨1, "[3] z", ["bts"], "open", []⟩)] "bts" "pkg" 3).trace.get? 6 =
      some (Event.fetchIssueComments 1) ∧
    (sync_bug false noAuthorTracker noAuthorHost
        [(3, ⟨1, "[3] z", ["bts"], "open", []⟩)] "bts" "pkg" 3).trace.get? 7 =
      some (Event.logMsg "comments to be created: 1") := by
  refine ⟨?_, by decide, by decide, by decide, ?_⟩ <;> decide

/-- C9, amended: the Throttler's quota policy sleeps one hour below the
low-water mark of 10 remaining requests and `total * 0.1 / remaining`
seconds otherwise; it runs after the repository, label, issue-list,
bug-summary and bug-log fetches; every content-creating call
(`create_issue`, `create_comment`, `edit_issue_state`) is immediately
followed by only the fixed 5-second abuse delay, never additionally by the
quota-policy sleep. -/
theorem C9_throttle_policy :
    (∀ remaining total : Nat, throttleDur remaining total =
      if remaining < 10 then SleepDur.hour else SleepDur.ratio total remaining) ∧
    SleepDur.seconds .hour = 3600 ∧
    (∀ t r : Nat, (SleepDur.ratio t r).seconds = (t : ℚ) * (1 / 10) / (r : ℚ)) ∧
    SleepDur.seconds .abuse = 5 ∧
    (∀ (dr : Bool) (tracker : TrackerState) (host : HostState)
        (pkg repo lbl : String),
      abusePaired (syncRepo dr tracker host pkg repo lbl).trace = true) :=
  ⟨fun _ _ => rfl, rfl, fun _ _ => rfl, rfl,
   fun dr tracker host pkg repo lbl =>
     (syncRepo_goodSeg dr tracker host pkg repo lbl).1⟩

/-! ## Claim C5: dry-run invariant -/

theorem stateHost_dry (h : HostState) (inum : Nat) (cur expected : String) :
    stateHost true h inum cur expected = h := by
  unfold stateHost
  split
  · rfl
  · rw [if_pos rfl]

theorem stateTail_no_mutation (inum : Nat) (cur expected : String) :
    mutationEvents (stateTailEvents true inum cur expected) = [] := by
  unfold stateTailEvents mutationEvents
  split
  · rfl
  · rw [if_pos rfl]
    simp [Event.isMutation]

theorem mutation_filter_nil_of (l : List Event)
    (h : ∀ e ∈ l, e.isMutation = false) : mutationEvents l = [] := by
  unfold mutationEvents
  induction l with
  | nil => rfl
  | cons e rest ih =>
    rw [List.filter_cons, h e (List.mem_cons_self e rest)]
    simp only [Bool.false_eq_true, if_neg]
    exact ih (fun x hx => h x (List.mem_cons_of_mem e hx))

theorem sync_bug_rest_dry_no_mutation (tracker : TrackerState)
    (host : HostState) (tr : List Event) (inum : Nat) (summary : BtsStatus)
    (bn : Int) (htr : mutationEvents tr = []) :
    mutationEvents (sync_bug_rest true tracker host tr inum summary bn).trace
      = [] := by
  unfold sync_bug_rest
  cases hfind : host.findIssue inum with
  | none =>
    simp only [hfind]
    rw [mutationEvents_append, htr]
    rw [mutation_filter_nil_of _ (by intro e he; fin_cases he <;> rfl)]
    rfl
  | some issue =>
    cases hscan : scanComments issue.comments (fetch_bug_log (tracker.logOf bn))
      with
    | error e =>
      simp only [hfind, hscan]
      rw [mutationEvents_append, mutationEvents_append, htr]
      rw [mutation_filter_nil_of _ (by intro x hx; fin_cases hx <;> rfl)]
      rw [mutation_filter_nil_of _ (by intro x hx; fin_cases hx <;> rfl)]
      rfl
    | ok left =>
      simp only [hfind, hscan]
      rw [mutationEvents_append, mutationEvents_append, mutationEvents_append,
        mutationEvents_append, mutationEvents_append, htr]
      rw [mutation_filter_nil_of _ (by intro x hx; fin_cases hx <;> rfl)]
      rw [mutation_filter_nil_of _ (by intro x hx; fin_cases hx <;> rfl)]
      rw [mutation_filter_nil_of _ (by intro x hx; fin_cases hx <;> rfl)]
      rw [commentEvents_dry_no_mutation, stateTail_no_mutation]
      rfl

theorem sync_bug_dry_no_mutation (tracker : TrackerState) (host : HostState)
    (imap : List (Int × GIssue)) (lbl pkg : String) (bn : Int) :
    mutationEvents (sync_bug true tracker host imap lbl pkg bn).trace = [] := by
  cases hst : (tracker.statusOf bn).head? with
  | none =>
    simp only [sync_bug, hst]
    exact mutation_filter_nil_of _ (by intro e he; fin_cases he <;> rfl)
  | some summary =>
    cases hlk : odLookup imap bn with
    | some matched =>
      simp only [sync_bug, hst, hlk]
      apply sync_bug_rest_dry_no_mutation
      exact mutation_filter_nil_of _ (by intro e he; fin_cases he <;> rfl)
    | none =>
      simp only [sync_bug, hst, hlk]
      rw [if_pos trivial]
      exact mutation_filter_nil_of _ (by intro e he; fin_cases he <;> rfl)

theorem syncRepo_dry_no_mutation (tracker : TrackerState) (host : HostState)
    (pkg repo lbl : String) :
    mutationEvents (syncRepo true tracker host pkg repo lbl).trace = [] := by
  have hhdr : mutationEvents (syncHeaderEvents tracker host pkg repo lbl) = [] :=
    mutation_filter_nil_of _ (by intro e he; fin_cases he <;> rfl)
  unfold syncRepo
  split
  · have hstart :
        mutationEvents (syncRepoHeader tracker host pkg repo lbl).trace = [] := by
      apply mutation_filter_nil_of
      intro e he
      unfold syncRepoHeader at he
      simp only [List.mem_append] at he
      rcases he with ((((h1 | h1) | h1) | h1) | h1)
      · unfold syncHeaderEvents at h1
        fin_cases h1 <;> rfl
      · fin_cases h1 <;> rfl
      · fin_cases h1 <;> rfl
      · exact matcherFold_logs_no_mutation _ ([], []) (by simp) e h1
      · fin_cases h1 <;> rfl
    suffices h : ∀ (bugs : List Int) (acc : StepResult),
        mutationEvents acc.trace = [] →
        mutationEvents ((bugs.foldl (syncFoldStep true tracker
          (fetch_github_issues_by_repo host.issues lbl).1 lbl pkg) acc)).trace
          = [] by
      exact h _ _ hstart
    intro bugs
    induction bugs with
    | nil => intro acc h; exact h
    | cons bn rest ih =>
      intro acc h
      rw [List.foldl_cons]
      apply ih
      unfold syncFoldStep
      cases acc.err with
      | some e => exact h
      | none =>
        show mutationEvents (acc.trace ++ _) = []
        rw [mutationEvents_append, h, sync_bug_dry_no_mutation]
        rfl
  · rw [mutationEvents_append, hhdr]
    rw [mutation_filter_nil_of _ (by intro e he; fin_cases he <;> rfl)]
    rfl

/-- Tracker with one bug (id 9) not yet mirrored anywhere. -/
def freshTracker : TrackerState :=
  ⟨[("pkg", [9])], [(9, [⟨"y", false⟩])], [(9, [⟨"Message-ID: mm", "bb"⟩])]⟩

/-- Host with the sync label but no issues. -/
def freshHost : HostState := ⟨["bts"], [], 1, 100, 1000⟩

/-- C5, counterexample: in dry-run, a bug with no existing issue returns
early — its bug log is never fetched — so "fetch calls (… bug log …) still
occur" fails, even though zero mutations happen and the bug-summary fetch
does occur. -/
theorem C5_counterexample :
    Event.fetchBugLog 9 ∉ (syncRepo true freshTracker freshHost "pkg" "r" "bts").trace ∧
    Event.fetchSummary 9 ∈ (syncRepo true freshTracker freshHost "pkg" "r" "bts").trace ∧
    mutationEvents (syncRepo true freshTracker freshHost "pkg" "r" "bts").trace = [] := by
  refine ⟨by decide, by decide, ?_⟩
  decide

/-- C5, amended: with dry-run enabled, `sync` performs zero mutating calls
for every input; the bug-list, repository, label, issue-list and
bug-summary fetches still occur, but the bug-log and issue-comment fetches
occur only for bugs whose issue already exists — for a new bug, dry-run
returns right after the summary fetch, logging only
`not creating new issue (dry run)`; for an existing issue, every
suppressed comment creation and state edit is logged individually. -/
theorem C5_dry_run_invariant :
    (∀ (tracker : TrackerState) (host : HostState) (pkg repo lbl : String),
      mutationEvents (syncRepo true tracker host pkg repo lbl).trace = []) ∧
    (∀ (tracker : TrackerState) (host : HostState)
        (imap : List (Int × GIssue)) (lbl pkg : String) (bn : Int)
        (summary : BtsStatus),
      (tracker.statusOf bn).head? = some summary →
      odLookup imap bn = none →
      sync_bug true tracker host imap lbl pkg bn =
        ⟨host,
         [.logMsg ("processing " ++ pkg ++ ": " ++ toString bn),
          .fetchSummary bn] ++
         [.sleep (throttleDur host.remaining host.total)] ++
         [.logMsg "not creating new issue (dry run)"], none⟩) ∧
    (∀ (tracker : TrackerState) (host : HostState)
        (imap : List (Int × GIssue)) (lbl pkg : String) (bn : Int)
        (summary : BtsStatus) (matched issue : GIssue)
        (left : List (String × Option String × String)),
      (tracker.statusOf bn).head? = some summary →
      odLookup imap bn = some matched →
      host.findIssue matched.number = some issue →
      scanComments issue.comments (fetch_bug_log (tracker.logOf bn)) = .ok left →
      sync_bug true tracker host imap lbl pkg bn =
        ⟨host,
         [.logMsg ("processing " ++ pkg ++ ": " ++ toString bn),
          .fetchSummary bn] ++
         [.sleep (throttleDur host.remaining host.total)] ++
         [.fetchBugLog bn, .sleep (throttleDur host.remaining host.total),
          .logMsg ("comments on the BTS: " ++
            toString (fetch_bug_log (tracker.logOf bn)).length)] ++
         [.fetchIssueComments matched.number] ++
         ([.logMsg ("comments to be created: " ++ toString left.length)] ++
          (left.map (fun e => mkCommentBody e.1 e.2.1 e.2.2)).map
            (fun _ => Event.logMsg "not creating comment (dryrun)")) ++
         stateTailEvents true matched.number issue.state
           (if summary.done then "closed" else "open"), none⟩) := by
  refine ⟨syncRepo_dry_no_mutation, ?_, ?_⟩
  · intro tracker host imap lbl pkg bn summary hst hlk
    simp only [sync_bug, hst, hlk]
    rw [if_pos trivial]
  · intro tracker host imap lbl pkg bn summary matched issue left hst hlk hfind
      hscan
    simp only [sync_bug, sync_bug_rest, hst, hlk, hfind, hscan]
    rw [stateHost_dry]
    congr 1

/-- C5, witness. -/
theorem C5_witness :
    mutationEvents (syncRepo true freshTracker freshHost "pkg" "r" "bts").trace
      = [] ∧
    sync_bug true freshTracker freshHost [] "bts" "pkg" 9 =
      ⟨freshHost,
       [.logMsg ("processing pkg: 9"), .fetchSummary 9] ++
       [.sleep (throttleDur freshHost.remaining freshHost.total)] ++
       [.logMsg "not creating new issue (dry run)"], none⟩ :=
  ⟨C5_dry_run_invariant.1 freshTracker freshHost "pkg" "r" "bts",
   C5_dry_run_invariant.2.1 freshTracker freshHost [] "bts" "pkg" 9
     ⟨"y", false⟩ (by decide) (by decide)⟩

/-! ## Claim C4: not-found error aborts the pass -/

theorem syncFold_err_frozen (dr : Bool) (tracker : TrackerState)
    (imap : List (Int × GIssue)) (lbl pkg : String) (l : List Int) :
    ∀ acc : StepResult, acc.err.isSome = true →
      l.foldl (syncFoldStep dr tracker imap lbl pkg) acc = acc := by
  induction l with
  | nil => intro acc _; rfl
  | cons bn rest ih =>
    intro acc h
    rw [List.foldl_cons]
    cases hacc : acc.err with
    | none => rw [hacc] at h; simp at h
    | some e =>
      have hstep : syncFoldStep dr tracker imap lbl pkg acc bn = acc := by
        simp only [syncFoldStep, hacc]
      rw [hstep]
      exact ih acc h

/-- Tracker whose bug list names bug 1, for which it has no status
record. -/
def missingTracker : TrackerState :=
  ⟨[("pkg", [1, 2])], [(2, [⟨"s2", true⟩])], []⟩

/-- Host with the sync label and no issues. -/
def missingHost : HostState := ⟨["bts"], [], 1, 100, 1000⟩

/-- C4, counterexample: the `RuntimeError` raised for the missing bug 1 is
never caught, so bug 2 — still pending in the same pass — is never even
summarised: the whole repository pass aborts instead of skipping bug 1. -/
theorem C4_counterexample :
    (syncRepo false missingTracker missingHost "pkg" "r" "bts").err =
      some (.runtimeError "No BTS data for #1") ∧
    Event.fetchSummary 2 ∉
      (syncRepo false missingTracker missingHost "pkg" "r" "bts").trace := by
  refine ⟨by decide, by decide⟩

/-- C4, amended: when the tracker has no record for a bug id,
`fetch_bug_summary` raises `RuntimeError("No BTS data for #<id>")`; nothing
catches it, so instead of the bug being skipped the repository pass stops
at that bug: its error escapes and none of the remaining bug numbers is
processed (the trace ends at the failing summary fetch). -/
theorem C4_notfound_aborts_pass (dr : Bool) (tracker : TrackerState)
    (host : HostState) (pkg repo lbl : String) (pre post : List Int) (bn : Int)
    (hlabel : host.labels.contains lbl = true)
    (hbugs : tracker.bugsOf pkg = pre ++ bn :: post)
    (hmissing : tracker.statusOf bn = [])
    (herr : (pre.foldl (syncFoldStep dr tracker
        (fetch_github_issues_by_repo host.issues lbl).1 lbl pkg)
        (syncRepoHeader tracker host pkg repo lbl)).err = none) :
    (syncRepo dr tracker host pkg repo lbl).err =
      some (.runtimeError ("No BTS data for #" ++ toString bn)) ∧
    (syncRepo dr tracker host pkg repo lbl).trace =
      (pre.foldl (syncFoldStep dr tracker
        (fetch_github_issues_by_repo host.issues lbl).1 lbl pkg)
        (syncRepoHeader tracker host pkg repo lbl)).trace ++
      [.logMsg ("processing " ++ pkg ++ ": " ++ toString bn),
       .fetchSummary bn] := by
  have hst' : (tracker.statusOf bn).head? = none := by rw [hmissing]; rfl
  unfold syncRepo
  rw [if_pos hlabel, hbugs, List.foldl_append, List.foldl_cons]
  set acc := pre.foldl (syncFoldStep dr tracker
      (fetch_github_issues_by_repo host.issues lbl).1 lbl pkg)
      (syncRepoHeader tracker host pkg repo lbl) with hacc
  have hstep : syncFoldStep dr tracker
      (fetch_github_issues_by_repo host.issues lbl).1 lbl pkg acc bn =
      ⟨acc.host,
       acc.trace ++ [.logMsg ("processing " ++ pkg ++ ": " ++ toString bn),
         .fetchSummary bn],
       some (.runtimeError ("No BTS data for #" ++ toString bn))⟩ := by
    simp only [syncFoldStep, herr]
    simp only [sync_bug, hst']
  rw [hstep]
  rw [syncFold_err_frozen dr tracker
    (fetch_github_issues_by_repo host.issues lbl).1 lbl pkg post
    ⟨acc.host,
     acc.trace ++ [Event.logMsg ("processing " ++ pkg ++ ": " ++ toString bn),
       Event.fetchSummary bn],
     some (PyError.runtimeError ("No BTS data for #" ++ toString bn))⟩ rfl]
  exact ⟨rfl, rfl⟩

/-- C4, witness. -/
theorem C4_witness :
    (syncRepo false missingTracker missingHost "pkg" "r" "bts").err =
      some (.runtimeError ("No BTS data for #" ++ toString (1 : Int))) ∧
    (syncRepo false missingTracker missingHost "pkg" "r" "bts").trace =
      (syncRepoHeader missingTracker missingHost "pkg" "r" "bts").trace ++
      [.logMsg ("processing pkg: " ++ toString (1 : Int)), .fetchSummary 1] :=
  C4_notfound_aborts_pass false missingTracker missingHost "pkg" "r" "bts"
    [] [2] 1 (by decide) (by decide) (by decide) rfl

/-! ## Claim C10: empty comment body crashes the pass -/

theorem scanComments_append (xs ys : List String) :
    ∀ od, scanComments (xs ++ ys) od =
      match scanComments xs od with
      | .ok od' => scanComments ys od'
      | .error e => .error e := by
  induction xs with
  | nil => intro od; rfl
  | cons c rest ih =>
    intro od
    cases hsp : pySplitlines c with
    | nil => simp only [List.cons_append, scanComments, hsp]
    | cons l0 t =>
      simp only [List.cons_append, scanComments, hsp]
      by_cases hm : pyStartsWith l0 "BTS_msg_id:" = true
      · rw [if_pos hm, if_pos hm]
        by_cases hod : od.isEmpty = true
        · rw [if_pos hod, if_pos hod]
        · rw [if_neg hod, if_neg hod]
          exact ih _
      · rw [if_neg hm, if_neg hm]
        exact ih od

theorem scanComments_no_indexError (cs : List String) :
    ∀ od, (∀ c ∈ cs, c ≠ "") →
      scanComments cs od ≠ .error .indexError := by
  induction cs with
  | nil =>
    intro od _ h
    simp [scanComments] at h
  | cons c rest ih =>
    intro od hne
    have hcne := hne c (List.mem_cons_self c rest)
    cases hsp : pySplitlines c with
    | nil =>
      exact absurd hsp (pySplitlines_ne_nil c (data_ne_nil_of_ne_empty hcne))
    | cons l0 t =>
      simp only [scanComments, hsp]
      by_cases hm : pyStartsWith l0 "BTS_msg_id:" = true
      · rw [if_pos hm]
        by_cases hod : od.isEmpty = true
        · rw [if_pos hod]
          intro h
          simp at h
        · rw [if_neg hod]
          exact ih _ (fun x hx => hne x (List.mem_cons_of_mem c hx))
      · rw [if_neg hm]
        exact ih od (fun x hx => hne x (List.mem_cons_of_mem c hx))

/-- C10: the marker scan is total only when every existing host comment
has a nonempty body.  `comment.body.splitlines()[0]` on an empty body
raises `IndexError`; the error propagates out of `sync_bug`, so the
repository pass stops at that bug — its trace ends at the comment listing
and the remaining bugs are never processed — instead of the comment being
skipped.  Conversely, when every scanned body is nonempty no `IndexError`
is raised. -/
theorem C10_empty_comment_aborts (dr : Bool) (tracker : TrackerState)
    (host : HostState) (pkg repo lbl : String) (post : List Int) (bn : Int)
    (summary : BtsStatus) (matched issue : GIssue)
    (cpre cpost : List String)
    (odmid : List (String × Option String × String))
    (hlabel : host.labels.contains lbl = true)
    (hbugs : tracker.bugsOf pkg = bn :: post)
    (hst : (tracker.statusOf bn).head? = some summary)
    (hmap : odLookup (fetch_github_issues_by_repo host.issues lbl).1 bn =
      some matched)
    (hfind : host.findIssue matched.number = some issue)
    (hcomments : issue.comments = cpre ++ "" :: cpost)
    (hpre : scanComments cpre (fetch_bug_log (tracker.logOf bn)) = .ok odmid) :
    (syncRepo dr tracker host pkg repo lbl).err = some .indexError ∧
    (syncRepo dr tracker host pkg repo lbl).trace =
      (syncRepoHeader tracker host pkg repo lbl).trace ++
      ([.logMsg ("processing " ++ pkg ++ ": " ++ toString bn),
        .fetchSummary bn] ++
       [.sleep (throttleDur host.remaining host.total)] ++
       [.fetchBugLog bn, .sleep (throttleDur host.remaining host.total),
        .logMsg ("comments on the BTS: " ++
          toString (fetch_bug_log (tracker.logOf bn)).length)] ++
       [.fetchIssueComments matched.number]) ∧
    (∀ (cs : List String) (od : List (String × Option String × String)),
      (∀ c ∈ cs, c ≠ "") → scanComments cs od ≠ .error .indexError) := by
  have hscan : scanComments issue.comments (fetch_bug_log (tracker.logOf bn)) =
      .error .indexError := by
    rw [hcomments, scanComments_append, hpre]
    rfl
  have hbug : sync_bug dr tracker host
      (fetch_github_issues_by_repo host.issues lbl).1 lbl pkg bn =
      ⟨host,
       [Event.logMsg ("processing " ++ pkg ++ ": " ++ toString bn),
        Event.fetchSummary bn] ++
       [Event.sleep (throttleDur host.remaining host.total)] ++
       [Event.fetchBugLog bn, Event.sleep (throttleDur host.remaining host.total),
        Event.logMsg ("comments on the BTS: " ++
          toString (fetch_bug_log (tracker.logOf bn)).length)] ++
       [Event.fetchIssueComments matched.number],
       some .indexError⟩ := by
    simp only [sync_bug, sync_bug_rest, hst, hmap, hfind, hscan]
  unfold syncRepo
  rw [if_pos hlabel, hbugs, List.foldl_cons]
  have hstep : syncFoldStep dr tracker
      (fetch_github_issues_by_repo host.issues lbl).1 lbl pkg
      (syncRepoHeader tracker host pkg repo lbl) bn =
      ⟨host,
       (syncRepoHeader tracker host pkg repo lbl).trace ++
       ([Event.logMsg ("processing " ++ pkg ++ ": " ++ toString bn),
         Event.fetchSummary bn] ++
        [Event.sleep (throttleDur host.remaining host.total)] ++
        [Event.fetchBugLog bn, Event.sleep (throttleDur host.remaining host.total),
         Event.logMsg ("comments on the BTS: " ++
           toString (fetch_bug_log (tracker.logOf bn)).length)] ++
        [Event.fetchIssueComments matched.number]),
       some .indexError⟩ := by
    have hherr : (syncRepoHeader tracker host pkg repo lbl).err = none := rfl
    simp only [syncFoldStep, hherr]
    rw [show (syncRepoHeader tracker host pkg repo lbl).host = host from rfl]
    rw [hbug]
  rw [hstep]
  rw [syncFold_err_frozen dr tracker
    (fetch_github_issues_by_repo host.issues lbl).1 lbl pkg post
    ⟨host,
     (syncRepoHeader tracker host pkg repo lbl).trace ++
     ([Event.logMsg ("processing " ++ pkg ++ ": " ++ toString bn),
       Event.fetchSummary bn] ++
      [Event.sleep (throttleDur host.remaining host.total)] ++
      [Event.fetchBugLog bn, Event.sleep (throttleDur host.remaining host.total),
       Event.logMsg ("comments on the BTS: " ++
         toString (fetch_bug_log (tracker.logOf bn)).length)] ++
      [Event.fetchIssueComments matched.number]),
     some PyError.indexError⟩ rfl]
  exact ⟨rfl, rfl, scanComments_no_indexError⟩

/-- Issue with an empty-bodied comment. -/
def emptyCommentIssue : GIssue :=
  { number := 1, title := "[5] x", labels := ["bts"], state := "open",
    comments := ["hi", ""] }

/-- Tracker for bug 5 with an empty bug log. -/
def emptyCommentTracker : TrackerState :=
  ⟨[("pkg", [5])], [(5, [⟨"x", false⟩])], [(5, [])]⟩

/-- Host whose only issue carries the empty-bodied comment. -/
def emptyCommentHost : HostState :=
  ⟨["bts"], [emptyCommentIssue], 2, 100, 1000⟩

/-- C10, witness. -/
theorem C10_witness :
    (syncRepo false emptyCommentTracker emptyCommentHost "pkg" "r" "bts").err =
      some .indexError :=
  (C10_empty_comment_aborts false emptyCommentTracker emptyCommentHost
    "pkg" "r" "bts" [] 5 ⟨"x", false⟩ emptyCommentIssue emptyCommentIssue
    ["hi"] [] [] (by decide) (by decide) (by decide) (by decide) (by decide)
    rfl rfl).1

/-! ## Claim C1: comment deduplication (popitem bug) -/

/-- Tracker with bug 7 whose log has messages m1, m2, m3. -/
def c1Tracker : TrackerState :=
  ⟨[("pkg", [7])],
   [(7, [⟨"subj", false⟩])],
   [(7, [⟨"Message-ID: m1\nFrom: alice", "b1"⟩,
         ⟨"Message-ID: m2\nFrom: bob", "b2"⟩,
         ⟨"Message-ID: m3\nFrom: carol", "b3"⟩])]⟩

/-- The host issue for bug 7, already carrying marker comments for m1 and
m2. -/
def c1Issue : GIssue :=
  { number := 1, title := "[7] subj", labels := ["bts"], state := "open",
    comments := [mkCommentBody "m1" (some "alice") "b1",
                 mkCommentBody "m2" (some "bob") "b2"] }

/-- Host holding `c1Issue`. -/
def c1Host : HostState := ⟨["bts"], [c1Issue], 2, 100, 1000⟩

/-- C1, evaluation at the failing input: the tracker log is
`{m1, m2, m3}` and the issue already carries markers for `{m1, m2}`, yet
the single comment the code creates is for `m1` — a duplicate of an
already-mirrored message — not for `m3` as the spec requires.
`bts_bug_logs.popitem(bts_msg_id)` passes the message id as `popitem`'s
`last` flag, so each marker pops the newest log entry (m3, then m2)
instead of removing the matching key. -/
theorem C1_popitem_divergence :
    fetch_bug_log (c1Tracker.logOf 7) =
      [("m1", some "alice", "b1"), ("m2", some "bob", "b2"),
       ("m3", some "carol", "b3")] ∧
    (sync_bug false c1Tracker c1Host (matcherMap c1Host.issues "bts")
        "bts" "pkg" 7).err = none ∧
    ((sync_bug false c1Tracker c1Host (matcherMap c1Host.issues "bts")
        "bts" "pkg" 7).trace.filterMap
      (fun e => match e with | .createComment _ b => some b | _ => none)) =
      [mkCommentBody "m1" (some "alice") "b1"] ∧
    mkCommentBody "m1" (some "alice") "b1" ≠
      mkCommentBody "m3" (some "carol") "b3" := by
  refine ⟨by decide, by decide, ?_, by decide⟩
  decide

/-! ## Claim C2: idempotence of a completed live pass -/

/-- The issue the Matcher files under bug id `bn`: the last issue in list
order carrying the sync label and a title parsing to `bn`
(cf. `matcherMap_lookup`). -/
def lastMatch (issues : List GIssue) (lbl : String) (bn : Int) : Option GIssue :=
  ((issues.filter (fun i => i.labels.contains lbl)).filter
    (fun i => decide (parse_title i.title = some bn))).getLast?

theorem matcherMap_lastMatch (issues : List GIssue) (lbl : String) (bn : Int) :
    odLookup (matcherMap issues lbl) bn = lastMatch issues lbl bn :=
  matcherMap_lookup issues lbl bn

/-- Bug `bn` is fully mirrored on host `h`: its status record exists, the
Matcher resolves it to an issue the host also returns by number, every
comment of that issue is nonempty, the marker count equals the bug-log
length (so the next marker scan consumes the whole ordered dict), and the
open/closed state already agrees with the summary's `done` flag. -/
def Synced (tracker : TrackerState) (lbl : String) (bn : Int) (h : HostState) : Prop :=
  ∃ summary i,
    (tracker.statusOf bn).head? = some summary ∧
    lastMatch h.issues lbl bn = some i ∧
    h.findIssue i.number = some i ∧
    markerCount i.comments = (fetch_bug_log (tracker.logOf bn)).length ∧
    (∀ c ∈ i.comments, c ≠ "") ∧
    i.state = (if summary.done then "closed" else "open")

theorem lastMatch_mem {issues : List GIssue} {lbl : String} {bn : Int}
    {i : GIssue} (h : lastMatch issues lbl bn = some i) :
    i ∈ issues ∧ i.labels.contains lbl = true ∧
      parse_title i.title = some bn :=
  matcherMap_lookup_some issues lbl bn i
    ((matcherMap_lastMatch issues lbl bn).trans h)

theorem issues_nodup_inj {l : List GIssue} (hnd : (l.map GIssue.number).Nodup)
    {i j : GIssue} (hi : i ∈ l) (hj : j ∈ l) (hij : i.number = j.number) :
    i = j :=
  List.inj_on_of_nodup_map hnd hi hj hij

/-- A number/title/label-preserving rewriting of the issue list rewrites
the Matcher's winner pointwise. -/
theorem lastMatch_map (issues : List GIssue) (lbl : String) (bn : Int)
    (g : GIssue → GIssue) (htit : ∀ i, (g i).title = i.title)
    (hlab : ∀ i, (g i).labels = i.labels) :
    lastMatch (issues.map g) lbl bn = (lastMatch issues lbl bn).map g := by
  unfold lastMatch
  have h1 : ((fun i : GIssue => i.labels.contains lbl) ∘ g) =
      (fun i : GIssue => i.labels.contains lbl) := by
    funext i
    simp [Function.comp, hlab i]
  have h2 : ((fun i : GIssue => decide (parse_title i.title = some bn)) ∘ g) =
      (fun i : GIssue => decide (parse_title i.title = some bn)) := by
    funext i
    simp [Function.comp, htit i]
  rw [List.filter_map, h1, List.filter_map, h2, List.getLast?_map]

/-- Appending an issue whose title parses to a different bug id leaves the
Matcher's winner for `bn` unchanged. -/
theorem lastMatch_append_nomatch (issues : List GIssue) (lbl : String)
    (bn : Int) (j : GIssue) (hp : parse_title j.title ≠ some bn) :
    lastMatch (issues ++ [j]) lbl bn = lastMatch issues lbl bn := by
  unfold lastMatch
  rw [List.filter_append]
  by_cases hl : j.labels.contains lbl = true
  · rw [show List.filter (fun i : GIssue => i.labels.contains lbl) [j] = [j]
      from by rw [List.filter_cons, if_pos hl]; rfl]
    rw [List.filter_append]
    rw [show List.filter
        (fun i : GIssue => decide (parse_title i.title = some bn)) [j] = []
      from by rw [List.filter_cons, if_neg (by simpa using hp)]; rfl]
    rw [List.append_nil]
  · rw [show List.filter (fun i : GIssue => i.labels.contains lbl) [j] = []
      from by rw [List.filter_cons, if_neg hl]; rfl]
    rw [List.append_nil]

/-- Appending a labelled issue whose title parses to `bn` makes it the
Matcher's winner for `bn`. -/
theorem lastMatch_append_match (issues : List GIssue) (lbl : String)
    (bn : Int) (j : GIssue) (hl : j.labels.contains lbl = true)
    (hp : parse_title j.title = some bn) :
    lastMatch (issues ++ [j]) lbl bn = some j := by
  unfold lastMatch
  rw [List.filter_append,
    show List.filter (fun i : GIssue => i.labels.contains lbl) [j] = [j]
      from by rw [List.filter_cons, if_pos hl]; rfl,
    List.filter_append,
    show List.filter
        (fun i : GIssue => decide (parse_title i.title = some bn)) [j] = [j]
      from by rw [List.filter_cons, if_pos (by simpa using hp)]; rfl]
  exact List.getLast?_concat _

theorem findIssue_map_issues (r h : HostState) (g : GIssue → GIssue)
    (hi : r.issues = h.issues.map g) (hg : ∀ i, (g i).number = i.number)
    (n : Nat) : r.findIssue n = (h.findIssue n).map g := by
  unfold HostState.findIssue
  rw [hi, List.find?_map]
  have hp : ((fun i : GIssue => i.number == n) ∘ g) =
      (fun i : GIssue => i.number == n) := by
    funext i
    simp [Function.comp, hg i]
  rw [hp]

theorem findIssue_append_issues (r h : HostState) (l : List GIssue)
    (hi : r.issues = h.issues ++ l) (n : Nat) :
    r.findIssue n = (h.findIssue n).or (l.find? (fun i => i.number == n)) := by
  unfold HostState.findIssue
  rw [hi, List.find?_append]

theorem find?_number_of_mem_nodup :
    ∀ (l : List GIssue), (l.map GIssue.number).Nodup →
      ∀ i ∈ l, l.find? (fun j => j.number == i.number) = some i := by
  intro l
  induction l with
  | nil => intro _ i hi; cases hi
  | cons a rest ih =>
    intro hnd i hi
    rw [List.map_cons, List.nodup_cons] at hnd
    rcases List.mem_cons.mp hi with h1 | h1
    · subst h1
      exact List.find?_cons_of_pos rest (by simp)
    · have hna : ¬(a.number == i.number) = true := by
        simp only [beq_iff_eq]
        intro hcon
        exact hnd.1 (by rw [hcon]; exact List.mem_map_of_mem GIssue.number h1)
      rw [List.find?_cons_of_neg rest hna]
      exact ih hnd.2 i h1

/-- With pairwise-distinct issue numbers, the host returns any listed
issue when looked up by its own number. -/
theorem findIssue_of_mem_nodup (h : HostState)
    (hnd : (h.issues.map GIssue.number).Nodup) (i : GIssue)
    (hi : i ∈ h.issues) : h.findIssue i.number = some i :=
  find?_number_of_mem_nodup h.issues hnd i hi

theorem addComment_def (h : HostState) (inum : Nat) (b : String) :
    h.addComment inum b = { h with issues := h.issues.map fun i =>
      if i.number = inum
        then { i with comments := i.comments ++ [b] } else i } := rfl

theorem map_addOne_comments (l : List GIssue) (inum : Nat) (b : String)
    (rest : List String) :
    (l.map (fun i => if i.number = inum
        then { i with comments := i.comments ++ [b] } else i)).map
      (fun i => if i.number = inum
        then { i with comments := i.comments ++ rest } else i) =
    l.map (fun i => if i.number = inum
        then { i with comments := i.comments ++ b :: rest } else i) := by
  rw [List.map_map]
  apply List.map_congr_left
  intro i _
  by_cases hi : i.number = inum
  · simp [Function.comp, hi]
  · simp [Function.comp, hi]

/-- The comment-creation fold as a single issue-list rewrite. -/
theorem addComments_host (bodies : List String) :
    ∀ (h : HostState) (inum : Nat),
      bodies.foldl (fun hh b => hh.addComment inum b) h =
        { h with issues := h.issues.map (fun i => if i.number = inum
            then { i with comments := i.comments ++ bodies } else i) } := by
  induction bodies with
  | nil =>
    intro h inum
    rw [List.foldl_nil]
    have hfun : (fun i : GIssue => if i.number = inum
        then { i with comments := i.comments ++ ([] : List String) } else i)
        = id := by
      funext i
      by_cases hi : i.number = inum
      · rw [if_pos hi, List.append_nil]
        rfl
      · rw [if_neg hi]
        rfl
    rw [hfun, List.map_id]
  | cons b rest ih =>
    intro h inum
    rw [List.foldl_cons, ih]
    simp only [addComment_def]
    rw [map_addOne_comments]

/-- `sync_bug_rest` in live mode, when the issue is found and the marker
scan succeeds: the full result. -/
theorem sync_bug_rest_ok (tracker : TrackerState) (h : HostState)
    (tr : List Event) (inum : Nat) (summary : BtsStatus) (bn : Int)
    (issue : GIssue) (left : List (String × Option String × String))
    (hfind : h.findIssue inum = some issue)
    (hscan : scanComments issue.comments (fetch_bug_log (tracker.logOf bn))
      = .ok left) :
    sync_bug_rest false tracker h tr inum summary bn =
      ⟨stateHost false
         { h with issues := h.issues.map fun i =>
             if i.number = inum
               then { i with comments := i.comments ++ left.map (fun e => mkCommentBody e.1 e.2.1 e.2.2) } else i }
         inum issue.state (if summary.done then "closed" else "open"),
       ((((tr ++ [.fetchBugLog bn, .sleep (throttleDur h.remaining h.total),
            .logMsg ("comments on the BTS: " ++
              toString (fetch_bug_log (tracker.logOf bn)).length)])
          ++ [.fetchIssueComments inum])
          ++ [.logMsg ("comments to be created: " ++ toString left.length)])
          ++ commentEvents false inum
              (left.map (fun e => mkCommentBody e.1 e.2.1 e.2.2)))
          ++ stateTailEvents false inum issue.state
              (if summary.done then "closed" else "open"),
       none⟩ := by
  unfold sync_bug_rest
  simp only [hfind, hscan]
  rw [if_neg (by simp), addComments_host]

/-- `sync_bug_rest` in live mode errors when the scan errors. -/
theorem sync_bug_rest_scan_err (tracker : TrackerState) (h : HostState)
    (tr : List Event) (inum : Nat) (summary : BtsStatus) (bn : Int)
    (issue : GIssue) (e : PyError)
    (hfind : h.findIssue inum = some issue)
    (hscan : scanComments issue.comments (fetch_bug_log (tracker.logOf bn))
      = .error e) :
    (sync_bug_rest false tracker h tr inum summary bn).err = some e := by
  unfold sync_bug_rest
  simp only [hfind, hscan]

/-- Bodies minted from a sublist of the bug-log dict are all detected as
markers on the next pass: the dict's keys are newline-free. -/
theorem markerCount_bodies (msgs : List BtsMessage)
    (left : List (String × Option String × String))
    (hsub : left.Sublist (fetch_bug_log msgs)) :
    markerCount (left.map fun e => mkCommentBody e.1 e.2.1 e.2.2)
      = left.length := by
  unfold markerCount
  have hall : ∀ a ∈ left.map (fun e => mkCommentBody e.1 e.2.1 e.2.2),
      isMarkerComment a = true := by
    intro a ha
    obtain ⟨e, he, hae⟩ := List.mem_map.mp ha
    rw [← hae]
    exact isMarkerComment_mkCommentBody e.1 e.2.1 e.2.2
      (fetch_bug_log_keys_no_nl msgs e (hsub.subset he))
  rw [List.filter_eq_self.mpr hall, List.length_map]

/-- The matched branch of a live `sync_bug` (lines 185-187). -/
theorem sync_bug_matched_eq (tracker : TrackerState) (h : HostState)
    (imap : List (Int × GIssue)) (lbl pkg : String) (bn : Int)
    (summary : BtsStatus) (matched : GIssue)
    (hst : (tracker.statusOf bn).head? = some summary)
    (hlook : odLookup imap bn = some matched) :
    sync_bug false tracker h imap lbl pkg bn =
      sync_bug_rest false tracker h
        ([.logMsg ("processing " ++ pkg ++ ": " ++ toString bn),
          .fetchSummary bn]
          ++ [.sleep (throttleDur h.remaining h.total)])
        matched.number summary bn := by
  simp only [sync_bug, hst, hlook]

/-- The creating branch of a live `sync_bug` (lines 193-199). -/
theorem sync_bug_created_eq (tracker : TrackerState) (h : HostState)
    (imap : List (Int × GIssue)) (lbl pkg : String) (bn : Int)
    (summary : BtsStatus)
    (hst : (tracker.statusOf bn).head? = some summary)
    (hlook : odLookup imap bn = none) :
    sync_bug false tracker h imap lbl pkg bn =
      sync_bug_rest false tracker
        { h with
            issues := h.issues ++ [⟨h.nextIssue, mkTitle bn summary.subject, [lbl], "open", []⟩],
            nextIssue := h.nextIssue + 1 }
        (([.logMsg ("processing " ++ pkg ++ ": " ++ toString bn),
           .fetchSummary bn]
          ++ [.sleep (throttleDur h.remaining h.total)])
          ++ [.logMsg "creating new issue",
              .createIssue h.nextIssue (mkTitle bn summary.subject) [lbl],
              .sleep .abuse])
        h.nextIssue summary bn := by
  simp only [sync_bug, hst, hlook]
  rw [if_neg (by simp)]

/-- Rewriting that only touches a number absent from the list is the
identity on it. -/
theorem map_fresh_id (l : List GIssue) (inum : Nat) (f : GIssue → GIssue)
    (hfresh : ∀ i ∈ l, i.number ≠ inum)
    (hf : ∀ i, i.number ≠ inum → f i = i) : l.map f = l := by
  have h2 : l.map f = l.map id := by
    apply List.map_congr_left
    intro i hi
    rw [hf i (hfresh i hi)]
    rfl
  rw [h2, List.map_id]

/-- One successful live `sync_bug` step on a bug the pass has not touched
yet (the stale Matcher map and the current host still agree about `bn`):
afterwards bug `bn` is fully mirrored, the host labels are unchanged, and
the issue list either got rewritten number-preservingly at the matched
issue's number, or extended by one fresh issue whose title parses to
`bn`. -/
theorem sync_bug_run1 (tracker : TrackerState) (h₀ h : HostState)
    (lbl pkg : String) (bn : Int) (R : StepResult)
    (hR : sync_bug false tracker h (matcherMap h₀.issues lbl) lbl pkg bn = R)
    (hmatch : lastMatch h.issues lbl bn = lastMatch h₀.issues lbl bn)
    (hfind0 : ∀ j, lastMatch h₀.issues lbl bn = some j →
        h.findIssue j.number = some j)
    (hbound : ∀ i ∈ h.issues, i.number < h.nextIssue)
    (herr : R.err = none) :
    Synced tracker lbl bn R.host ∧ R.host.labels = h.labels ∧
    ((∃ (g : GIssue → GIssue) (i₀ : GIssue),
        R.host.issues = h.issues.map g ∧ R.host.nextIssue = h.nextIssue ∧
        (∀ i, (g i).number = i.number) ∧ (∀ i, (g i).title = i.title) ∧
        (∀ i, (g i).labels = i.labels) ∧
        (∀ i, i.number ≠ i₀.number → g i = i) ∧
        lastMatch h.issues lbl bn = some i₀) ∨
     (∃ j : GIssue,
        R.host.issues = h.issues ++ [j] ∧
        R.host.nextIssue = h.nextIssue + 1 ∧ j.number = h.nextIssue ∧
        parse_title j.title = some bn ∧
        lastMatch h.issues lbl bn = none)) := by
  cases hst : (tracker.statusOf bn).head? with
  | none =>
    have hRe : R = ⟨h, [.logMsg ("processing " ++ pkg ++ ": " ++ toString bn),
        .fetchSummary bn],
        some (.runtimeError ("No BTS data for #" ++ toString bn))⟩ := by
      rw [← hR]
      simp only [sync_bug, hst]
    rw [hRe] at herr
    simp at herr
  | some summary =>
    cases hlook : odLookup (matcherMap h₀.issues lbl) bn with
    | some matched =>
      have hlm0 : lastMatch h₀.issues lbl bn = some matched := by
        rw [← matcherMap_lastMatch]
        exact hlook
      have hlmh : lastMatch h.issues lbl bn = some matched := hmatch.trans hlm0
      have hfind : h.findIssue matched.number = some matched :=
        hfind0 matched hlm0
      have hRe := hR.symm.trans
        (sync_bug_matched_eq tracker h _ lbl pkg bn summary matched hst hlook)
      cases hscan : scanComments matched.comments
          (fetch_bug_log (tracker.logOf bn)) with
      | error e =>
        rw [hRe] at herr
        rw [sync_bug_rest_scan_err tracker h _ matched.number summary bn
          matched e hfind hscan] at herr
        simp at herr
      | ok left =>
        have hRe2 := hRe.trans (sync_bug_rest_ok tracker h _ matched.number
          summary bn matched left hfind hscan)
        obtain ⟨hnem, hkle, hlen, hsub⟩ :=
          scanComments_ok matched.comments _ left hscan
        rw [hRe2]
        dsimp only
        set exp := (if summary.done then "closed" else "open") with hexp
        set bodies := left.map (fun e => mkCommentBody e.1 e.2.1 e.2.2)
          with hbodies
        set gA := (fun i : GIssue => if i.number = matched.number
          then { i with comments := i.comments ++ bodies } else i) with hgA
        have hnum : ∀ i, (gA i).number = i.number := by
          intro i
          by_cases hi : i.number = matched.number <;> simp [hgA, hi]
        have htit : ∀ i, (gA i).title = i.title := by
          intro i
          by_cases hi : i.number = matched.number <;> simp [hgA, hi]
        have hlab : ∀ i, (gA i).labels = i.labels := by
          intro i
          by_cases hi : i.number = matched.number <;> simp [hgA, hi]
        have hid : ∀ i, i.number ≠ matched.number → gA i = i := by
          intro i hi
          simp [hgA, hi]
        have hgAm : gA matched
            = { matched with comments := matched.comments ++ bodies } := by
          rw [hgA]
          simp
        have hmkb : markerCount bodies = left.length := by
          rw [hbodies]
          exact markerCount_bodies (tracker.logOf bn) left hsub
        have hmk1 : markerCount (matched.comments ++ bodies)
            = (fetch_bug_log (tracker.logOf bn)).length := by
          rw [markerCount_append, hmkb]
          omega
        have hne1 : ∀ c ∈ matched.comments ++ bodies, c ≠ "" := by
          intro c hc
          rcases List.mem_append.mp hc with h1 | h1
          · exact hnem c h1
          · rw [hbodies] at h1
            obtain ⟨e, he, hec⟩ := List.mem_map.mp h1
            rw [← hec]
            exact mkCommentBody_ne_empty e.1 e.2.1 e.2.2
        by_cases hce : matched.state = exp
        · have hsh : stateHost false { h with issues := h.issues.map gA }
              matched.number matched.state exp
              = { h with issues := h.issues.map gA } := by
            unfold stateHost
            rw [if_pos hce]
          rw [hsh]
          refine ⟨⟨summary, gA matched, hst, ?_, ?_, ?_, ?_, ?_⟩, rfl,
            .inl ⟨gA, matched, rfl, rfl, hnum, htit, hlab, hid, hlmh⟩⟩
          · show lastMatch (h.issues.map gA) lbl bn = some (gA matched)
            rw [lastMatch_map _ _ _ gA htit hlab, hlmh]
            rfl
          · rw [hnum matched,
              findIssue_map_issues _ h gA rfl hnum, hfind]
            rfl
          · rw [hgAm]
            exact hmk1
          · rw [hgAm]
            exact hne1
          · rw [hgAm, ← hexp]
            exact hce
        · have hsh : stateHost false { h with issues := h.issues.map gA }
              matched.number matched.state exp
              = HostState.setIssueState { h with issues := h.issues.map gA }
                  matched.number exp := by
            unfold stateHost
            rw [if_neg hce, if_neg (by simp)]
          rw [hsh]
          set gB := (fun i : GIssue => if i.number = matched.number
            then { i with comments := i.comments ++ bodies, state := exp }
            else i) with hgB
          have hnumB : ∀ i, (gB i).number = i.number := by
            intro i
            by_cases hi : i.number = matched.number <;> simp [hgB, hi]
          have htitB : ∀ i, (gB i).title = i.title := by
            intro i
            by_cases hi : i.number = matched.number <;> simp [hgB, hi]
          have hlabB : ∀ i, (gB i).labels = i.labels := by
            intro i
            by_cases hi : i.number = matched.number <;> simp [hgB, hi]
          have hidB : ∀ i, i.number ≠ matched.number → gB i = i := by
            intro i hi
            simp [hgB, hi]
          have hgBm : gB matched = { matched with
              comments := matched.comments ++ bodies, state := exp } := by
            rw [hgB]
            simp
          have hcomp : (HostState.setIssueState
              { h with issues := h.issues.map gA } matched.number exp).issues
              = h.issues.map gB := by
            show (h.issues.map gA).map (fun i =>
              if i.number = matched.number
                then { i with state := exp } else i) = h.issues.map gB
            rw [List.map_map]
            apply List.map_congr_left
            intro i _
            by_cases hi : i.number = matched.number
            · simp [Function.comp, hgA, hgB, hi]
            · simp [Function.comp, hgA, hgB, hi]
          refine ⟨⟨summary, gB matched, hst, ?_, ?_, ?_, ?_, ?_⟩, rfl,
            .inl ⟨gB, matched, hcomp, rfl, hnumB, htitB, hlabB, hidB, hlmh⟩⟩
          · rw [show (HostState.setIssueState
                { h with issues := h.issues.map gA } matched.number exp).issues
                = h.issues.map gB from hcomp]
            rw [lastMatch_map _ _ _ gB htitB hlabB, hlmh]
            rfl
          · rw [hnumB matched,
              findIssue_map_issues _ h gB hcomp hnumB, hfind]
            rfl
          · rw [hgBm]
            exact hmk1
          · rw [hgBm]
            exact hne1
          · rw [hgBm, ← hexp]
    | none =>
      have hlm0 : lastMatch h₀.issues lbl bn = none := by
        rw [← matcherMap_lastMatch]
        exact hlook
      have hlmh : lastMatch h.issues lbl bn = none := hmatch.trans hlm0
      have hRe := hR.symm.trans
        (sync_bug_created_eq tracker h _ lbl pkg bn summary hst hlook)
      have hfnone : h.findIssue h.nextIssue = none := by
        unfold HostState.findIssue
        rw [List.find?_eq_none]
        intro i hi
        simp only [beq_iff_eq]
        exact Nat.ne_of_lt (hbound i hi)
      have hfind1 : HostState.findIssue
          { h with
              issues := h.issues ++ [⟨h.nextIssue, mkTitle bn summary.subject, [lbl], "open", []⟩],
              nextIssue := h.nextIssue + 1 } h.nextIssue
          = some ⟨h.nextIssue, mkTitle bn summary.subject, [lbl], "open", []⟩ := by
        rw [findIssue_append_issues _ h _ rfl, hfnone, Option.none_or]
        exact List.find?_cons_of_pos _ (by simp)
      have hscan : scanComments
          (GIssue.comments ⟨h.nextIssue, mkTitle bn summary.subject, [lbl], "open", []⟩)
          (fetch_bug_log (tracker.logOf bn))
          = .ok (fetch_bug_log (tracker.logOf bn)) := rfl
      have hRe2 := hRe.trans (sync_bug_rest_ok tracker _ _ h.nextIssue
        summary bn _ (fetch_bug_log (tracker.logOf bn)) hfind1 hscan)
      rw [hRe2]
      dsimp only
      set exp := (if summary.done then "closed" else "open") with hexp
      set bodies := (fetch_bug_log (tracker.logOf bn)).map
        (fun e => mkCommentBody e.1 e.2.1 e.2.2) with hbodies
      have hmkb : markerCount bodies
          = (fetch_bug_log (tracker.logOf bn)).length := by
        rw [hbodies]
        exact markerCount_bodies (tracker.logOf bn) _ (List.Sublist.refl _)
      have hneb : ∀ c ∈ bodies, c ≠ "" := by
        intro c hc
        rw [hbodies] at hc
        obtain ⟨e, he, hec⟩ := List.mem_map.mp hc
        rw [← hec]
        exact mkCommentBody_ne_empty e.1 e.2.1 e.2.2
      have hparse : parse_title (mkTitle bn summary.subject) = some bn :=
        parse_title_mkTitle bn summary.subject
      have hmapA : List.map
            (fun i => if i.number = h.nextIssue
              then { i with comments := i.comments ++ bodies } else i)
            (h.issues ++ [GIssue.mk h.nextIssue (mkTitle bn summary.subject) [lbl] "open" []])
          = h.issues ++
            [GIssue.mk h.nextIssue (mkTitle bn summary.subject) [lbl] "open" bodies] := by
        rw [List.map_append]
        rw [map_fresh_id h.issues h.nextIssue _
          (fun i hi => Nat.ne_of_lt (hbound i hi))
          (fun i hi => by
            show (if i.number = h.nextIssue then _ else i) = i
            rw [if_neg hi])]
        congr 1
        simp
      rw [hmapA]
      have hfindF : HostState.findIssue
          { h with
              issues := h.issues ++ [GIssue.mk h.nextIssue (mkTitle bn summary.subject) [lbl] "open" bodies],
              nextIssue := h.nextIssue + 1 } h.nextIssue
          = some (GIssue.mk h.nextIssue (mkTitle bn summary.subject) [lbl] "open" bodies) := by
        rw [findIssue_append_issues _ h _ rfl, hfnone, Option.none_or]
        exact List.find?_cons_of_pos _ (by simp)
      by_cases hce : ("open" : String) = exp
      · have hstate : stateHost false
            { h with
                issues := h.issues ++ [GIssue.mk h.nextIssue (mkTitle bn summary.subject) [lbl] "open" bodies],
                nextIssue := h.nextIssue + 1 } h.nextIssue "open" exp
            = { h with
                issues := h.issues ++ [GIssue.mk h.nextIssue (mkTitle bn summary.subject) [lbl] "open" bodies],
                nextIssue := h.nextIssue + 1 } := by
          unfold stateHost
          rw [if_pos hce]
        rw [hstate]
        refine ⟨⟨summary, GIssue.mk h.nextIssue (mkTitle bn summary.subject) [lbl] "open" bodies,
            hst, ?_, hfindF, hmkb, hneb, ?_⟩, rfl,
          .inr ⟨GIssue.mk h.nextIssue (mkTitle bn summary.subject) [lbl] "open" bodies,
            rfl, rfl, rfl, hparse, hlmh⟩⟩
        · show lastMatch (h.issues ++
            [GIssue.mk h.nextIssue (mkTitle bn summary.subject) [lbl] "open" bodies]) lbl bn = _
          exact lastMatch_append_match h.issues lbl bn _ (by simp) hparse
        · rw [← hexp]
          exact hce
      · have hmapS : List.map
            (fun i => if i.number = h.nextIssue then { i with state := exp } else i)
            (h.issues ++ [GIssue.mk h.nextIssue (mkTitle bn summary.subject) [lbl] "open" bodies])
            = h.issues ++ [GIssue.mk h.nextIssue (mkTitle bn summary.subject) [lbl] exp bodies] := by
          rw [List.map_append]
          rw [map_fresh_id h.issues h.nextIssue _
            (fun i hi => Nat.ne_of_lt (hbound i hi))
            (fun i hi => by
              show (if i.number = h.nextIssue then _ else i) = i
              rw [if_neg hi])]
          congr 1
          simp
        have hSS : HostState.setIssueState
            { h with
                issues := h.issues ++ [GIssue.mk h.nextIssue (mkTitle bn summary.subject) [lbl] "open" bodies],
                nextIssue := h.nextIssue + 1 } h.nextIssue exp
            = { h with
                issues := h.issues ++ [GIssue.mk h.nextIssue (mkTitle bn summary.subject) [lbl] exp bodies],
                nextIssue := h.nextIssue + 1 } := by
          unfold HostState.setIssueState
          dsimp only
          rw [hmapS]
        have hfindG : HostState.findIssue
            { h with
                issues := h.issues ++ [GIssue.mk h.nextIssue (mkTitle bn summary.subject) [lbl] exp bodies],
                nextIssue := h.nextIssue + 1 } h.nextIssue
            = some (GIssue.mk h.nextIssue (mkTitle bn summary.subject) [lbl] exp bodies) := by
          rw [findIssue_append_issues _ h _ rfl, hfnone, Option.none_or]
          exact List.find?_cons_of_pos _ (by simp)
        have hstate : stateHost false
            { h with
                issues := h.issues ++ [GIssue.mk h.nextIssue (mkTitle bn summary.subject) [lbl] "open" bodies],
                nextIssue := h.nextIssue + 1 } h.nextIssue "open" exp
            = { h with
                issues := h.issues ++ [GIssue.mk h.nextIssue (mkTitle bn summary.subject) [lbl] exp bodies],
                nextIssue := h.nextIssue + 1 } := by
          unfold stateHost
          rw [if_neg hce, if_neg (by simp)]
          exact hSS
        rw [hstate]
        refine ⟨⟨summary, GIssue.mk h.nextIssue (mkTitle bn summary.subject) [lbl] exp bodies,
            hst, ?_, hfindG, hmkb, hneb, ?_⟩, rfl,
          .inr ⟨GIssue.mk h.nextIssue (mkTitle bn summary.subject) [lbl] exp bodies,
            rfl, rfl, rfl, hparse, hlmh⟩⟩
        · show lastMatch (h.issues ++
            [GIssue.mk h.nextIssue (mkTitle bn summary.subject) [lbl] exp bodies]) lbl bn = _
          exact lastMatch_append_match h.issues lbl bn _ (by simp) hparse
        · rw [← hexp]

/-- A number-preserving in-place rewrite that only touches the number of
an issue whose title parses to `bn` preserves the mirrored status of every
other bug. -/
theorem Synced_preserved_map (tracker : TrackerState) (lbl : String)
    (bn bn' : Int) (h r : HostState) (g : GIssue → GIssue) (i₀ : GIssue)
    (hnd : (h.issues.map GIssue.number).Nodup)
    (hiss : r.issues = h.issues.map g)
    (hnum : ∀ i, (g i).number = i.number)
    (htit : ∀ i, (g i).title = i.title)
    (hlab : ∀ i, (g i).labels = i.labels)
    (hid : ∀ i, i.number ≠ i₀.number → g i = i)
    (hlm0 : lastMatch h.issues lbl bn = some i₀)
    (hne : bn' ≠ bn)
    (hS : Synced tracker lbl bn' h) :
    Synced tracker lbl bn' r := by
  obtain ⟨summary, i, hst, hlm, hfind, hmk, hnem, hstate⟩ := hS
  have himem : i ∈ h.issues := (lastMatch_mem hlm).1
  have hi0mem : i₀ ∈ h.issues := (lastMatch_mem hlm0).1
  have hneqnum : i.number ≠ i₀.number := by
    intro hcon
    have heq : i = i₀ := issues_nodup_inj hnd himem hi0mem hcon
    have hp1 := (lastMatch_mem hlm).2.2
    have hp2 := (lastMatch_mem hlm0).2.2
    rw [heq, hp2] at hp1
    exact hne (Option.some.inj hp1).symm
  have hgi : g i = i := hid i hneqnum
  refine ⟨summary, i, hst, ?_, ?_, hmk, hnem, hstate⟩
  · rw [hiss, lastMatch_map _ _ _ g htit hlab, hlm]
    show some (g i) = some i
    rw [hgi]
  · rw [findIssue_map_issues r h g hiss hnum, hfind]
    show some (g i) = some i
    rw [hgi]

/-- Appending an issue whose title parses to `bn` preserves the mirrored
status of every other bug. -/
theorem Synced_preserved_append (tracker : TrackerState) (lbl : String)
    (bn bn' : Int) (h r : HostState) (j : GIssue)
    (hiss : r.issues = h.issues ++ [j])
    (hp : parse_title j.title = some bn)
    (hne : bn' ≠ bn)
    (hS : Synced tracker lbl bn' h) :
    Synced tracker lbl bn' r := by
  obtain ⟨summary, i, hst, hlm, hfind, hmk, hnem, hstate⟩ := hS
  refine ⟨summary, i, hst, ?_, ?_, hmk, hnem, hstate⟩
  · rw [hiss, lastMatch_append_nomatch h.issues lbl bn' j (by
      rw [hp]
      simp only [ne_eq, Option.some.injEq]
      exact fun hcon => hne hcon.symm)]
    exact hlm
  · rw [findIssue_append_issues r h [j] hiss, hfind]
    rfl

/-- A number-preserving in-place rewrite at the number of `bn`'s matched
issue keeps the stale view of every other unprocessed bug intact. -/
theorem fresh_view_map (lbl : String) (bn bn'' : Int) (h₀ h r : HostState)
    (g : GIssue → GIssue) (i₀ : GIssue)
    (hnd : (h.issues.map GIssue.number).Nodup)
    (hiss : r.issues = h.issues.map g)
    (hnum : ∀ i, (g i).number = i.number)
    (htit : ∀ i, (g i).title = i.title)
    (hlab : ∀ i, (g i).labels = i.labels)
    (hid : ∀ i, i.number ≠ i₀.number → g i = i)
    (hlm0 : lastMatch h.issues lbl bn = some i₀)
    (hne : bn'' ≠ bn)
    (hmatch : lastMatch h.issues lbl bn'' = lastMatch h₀.issues lbl bn'')
    (hfind0 : ∀ j, lastMatch h₀.issues lbl bn'' = some j →
        h.findIssue j.number = some j) :
    lastMatch r.issues lbl bn'' = lastMatch h₀.issues lbl bn'' ∧
    ∀ j, lastMatch h₀.issues lbl bn'' = some j →
      r.findIssue j.number = some j := by
  cases hc : lastMatch h₀.issues lbl bn'' with
  | none =>
    constructor
    · rw [hiss, lastMatch_map _ _ _ g htit hlab, hmatch, hc]
      rfl
    · intro j hj
      cases hj
  | some j₀ =>
    have hlmc : lastMatch h.issues lbl bn'' = some j₀ := by
      rw [hmatch, hc]
    have hjmem : j₀ ∈ h.issues := (lastMatch_mem hlmc).1
    have hi0mem : i₀ ∈ h.issues := (lastMatch_mem hlm0).1
    have hneqnum : j₀.number ≠ i₀.number := by
      intro hcon
      have heq : j₀ = i₀ := issues_nodup_inj hnd hjmem hi0mem hcon
      have hp1 := (lastMatch_mem hlmc).2.2
      have hp2 := (lastMatch_mem hlm0).2.2
      rw [heq, hp2] at hp1
      exact hne (Option.some.inj hp1).symm
    have hgj : g j₀ = j₀ := hid j₀ hneqnum
    constructor
    · rw [hiss, lastMatch_map _ _ _ g htit hlab, hmatch, hc]
      show some (g j₀) = some j₀
      rw [hgj]
    · intro j hj
      injection hj with hj0
      subst hj0
      rw [findIssue_map_issues r h g hiss hnum, hfind0 j₀ hc]
      show some (g j₀) = some j₀
      rw [hgj]

/-- Appending an issue whose title parses to `bn` keeps the stale view of
every other unprocessed bug intact. -/
theorem fresh_view_append (lbl : String) (bn bn'' : Int) (h₀ h r : HostState)
    (j : GIssue)
    (hiss : r.issues = h.issues ++ [j])
    (hp : parse_title j.title = some bn)
    (hne : bn'' ≠ bn)
    (hmatch : lastMatch h.issues lbl bn'' = lastMatch h₀.issues lbl bn'')
    (hfind0 : ∀ q, lastMatch h₀.issues lbl bn'' = some q →
        h.findIssue q.number = some q) :
    lastMatch r.issues lbl bn'' = lastMatch h₀.issues lbl bn'' ∧
    ∀ q, lastMatch h₀.issues lbl bn'' = some q →
      r.findIssue q.number = some q := by
  constructor
  · rw [hiss, lastMatch_append_nomatch h.issues lbl bn'' j (by
      rw [hp]
      simp only [ne_eq, Option.some.injEq]
      exact fun hcon => hne hcon.symm)]
    exact hmatch
  · intro q hq
    rw [findIssue_append_issues r h [j] hiss, hfind0 q hq]
    rfl

/-- Well-formedness survives a number-preserving rewrite. -/
theorem WF_map (h r : HostState) (g : GIssue → GIssue)
    (hiss : r.issues = h.issues.map g) (hnext : r.nextIssue = h.nextIssue)
    (hnum : ∀ i, (g i).number = i.number)
    (hnd : (h.issues.map GIssue.number).Nodup)
    (hbound : ∀ i ∈ h.issues, i.number < h.nextIssue) :
    (r.issues.map GIssue.number).Nodup ∧
    ∀ i ∈ r.issues, i.number < r.nextIssue := by
  have hmap : r.issues.map GIssue.number = h.issues.map GIssue.number := by
    rw [hiss, List.map_map]
    apply List.map_congr_left
    intro i _
    exact hnum i
  constructor
  · rw [hmap]
    exact hnd
  · intro i hi
    rw [hiss] at hi
    obtain ⟨q, hq, hgq⟩ := List.mem_map.mp hi
    rw [← hgq, hnum q, hnext]
    exact hbound q hq

/-- Well-formedness survives appending the next fresh issue number. -/
theorem WF_append (h r : HostState) (j : GIssue)
    (hiss : r.issues = h.issues ++ [j]) (hnext : r.nextIssue = h.nextIssue + 1)
    (hjnum : j.number = h.nextIssue)
    (hnd : (h.issues.map GIssue.number).Nodup)
    (hbound : ∀ i ∈ h.issues, i.number < h.nextIssue) :
    (r.issues.map GIssue.number).Nodup ∧
    ∀ i ∈ r.issues, i.number < r.nextIssue := by
  constructor
  · rw [hiss, List.map_append, List.nodup_append]
    refine ⟨hnd, by simp, ?_⟩
    intro a ha hb
    obtain ⟨i, hi, hia⟩ := List.mem_map.mp ha
    have hb' : a = j.number := by simpa using hb
    have h1 := hbound i hi
    omega
  · intro i hi
    rw [hiss] at hi
    rcases List.mem_append.mp hi with h1 | h1
    · rw [hnext]
      exact Nat.lt_succ_of_lt (hbound i h1)
    · rw [List.mem_singleton] at h1
      subst h1
      rw [hnext, hjnum]
      exact Nat.lt_succ_self _

/-- Invariant induction over the per-bug loop of a completed live pass:
if every processed bug is already mirrored on the accumulator and the
stale Matcher view is intact for all others, the completed fold leaves
every bug mirrored and the labels unchanged. -/
theorem run1_fold (tracker : TrackerState) (lbl pkg : String)
    (h₀ : HostState) :
    ∀ (bugs processed : List Int) (acc : StepResult),
      bugs.Nodup → (∀ bn ∈ bugs, bn ∉ processed) →
      acc.err = none →
      (acc.host.issues.map GIssue.number).Nodup →
      (∀ i ∈ acc.host.issues, i.number < acc.host.nextIssue) →
      acc.host.labels = h₀.labels →
      (∀ bn ∈ processed, Synced tracker lbl bn acc.host) →
      (∀ bn, bn ∉ processed →
        lastMatch acc.host.issues lbl bn = lastMatch h₀.issues lbl bn ∧
        ∀ j, lastMatch h₀.issues lbl bn = some j →
          acc.host.findIssue j.number = some j) →
      (bugs.foldl (syncFoldStep false tracker (matcherMap h₀.issues lbl)
        lbl pkg) acc).err = none →
      ((bugs.foldl (syncFoldStep false tracker (matcherMap h₀.issues lbl)
          lbl pkg) acc).host.labels = h₀.labels ∧
       ∀ bn ∈ processed ++ bugs, Synced tracker lbl bn
         (bugs.foldl (syncFoldStep false tracker (matcherMap h₀.issues lbl)
           lbl pkg) acc).host) := by
  intro bugs
  induction bugs with
  | nil =>
    intro processed acc _ _ _ _ _ hlabels hSync _ _
    rw [List.foldl_nil]
    exact ⟨hlabels, by simpa using hSync⟩
  | cons bn rest ih =>
    intro processed acc hnodup hunproc herrA hnd hbound hlabels hSync hfresh
      hfinal
    rw [List.foldl_cons] at hfinal ⊢
    have hstep : syncFoldStep false tracker (matcherMap h₀.issues lbl) lbl pkg
        acc bn
        = ⟨(sync_bug false tracker acc.host (matcherMap h₀.issues lbl) lbl pkg bn).host,
           acc.trace ++ (sync_bug false tracker acc.host (matcherMap h₀.issues lbl) lbl pkg bn).trace,
           (sync_bug false tracker acc.host (matcherMap h₀.issues lbl) lbl pkg bn).err⟩ := by
      simp only [syncFoldStep, herrA]
    cases hrerr : (sync_bug false tracker acc.host (matcherMap h₀.issues lbl)
        lbl pkg bn).err with
    | some e =>
      exfalso
      rw [hrerr] at hstep
      rw [hstep] at hfinal
      have hfr := syncFold_err_frozen false tracker (matcherMap h₀.issues lbl)
        lbl pkg rest
        ⟨(sync_bug false tracker acc.host (matcherMap h₀.issues lbl) lbl pkg bn).host,
         acc.trace ++ (sync_bug false tracker acc.host (matcherMap h₀.issues lbl) lbl pkg bn).trace,
         some e⟩ rfl
      rw [hfr] at hfinal
      simp at hfinal
    | none =>
      have hbnp : bn ∉ processed := hunproc bn (List.mem_cons_self bn rest)
      obtain ⟨hSyncNew, hlabNew, hshape⟩ := sync_bug_run1 tracker h₀ acc.host
        lbl pkg bn _ rfl (hfresh bn hbnp).1 (hfresh bn hbnp).2 hbound hrerr
      rw [hrerr] at hstep
      rw [hstep] at hfinal ⊢
      have happ : processed ++ bn :: rest = (processed ++ [bn]) ++ rest := by
        rw [List.append_assoc]
        rfl
      rw [happ]
      have hup : ∀ b ∈ rest, b ∉ processed ++ [bn] := by
        intro b hb hmem
        rcases List.mem_append.mp hmem with h1 | h1
        · exact hunproc b (List.mem_cons_of_mem bn hb) h1
        · rw [List.mem_singleton] at h1
          subst h1
          exact (List.nodup_cons.mp hnodup).1 hb
      rcases hshape with ⟨g, i₀, hiss, hnext, hnum, htit, hlab2, hid, hlm⟩ |
        ⟨j, hiss, hnext, hjnum, hp, hlm⟩
      · refine ih (processed ++ [bn]) _ (List.Nodup.of_cons hnodup) hup rfl
          (WF_map acc.host _ g hiss hnext hnum hnd hbound).1
          (WF_map acc.host _ g hiss hnext hnum hnd hbound).2
          (hlabNew.trans hlabels) ?_ ?_ hfinal
        · intro b hb
          rcases List.mem_append.mp hb with h1 | h1
          · exact Synced_preserved_map tracker lbl bn b acc.host _ g i₀ hnd
              hiss hnum htit hlab2 hid hlm
              (fun hcon => hunproc bn (List.mem_cons_self bn rest)
                (hcon ▸ h1)) (hSync b h1)
          · rw [List.mem_singleton] at h1
            subst h1
            exact hSyncNew
        · intro b hb
          have hb1 : b ∉ processed := fun hcon =>
            hb (List.mem_append.mpr (Or.inl hcon))
          have hb2 : b ≠ bn := fun hcon =>
            hb (List.mem_append.mpr (Or.inr (by rw [hcon]; simp)))
          exact fresh_view_map lbl bn b h₀ acc.host _ g i₀ hnd hiss hnum htit
            hlab2 hid hlm hb2 (hfresh b hb1).1 (hfresh b hb1).2
      · refine ih (processed ++ [bn]) _ (List.Nodup.of_cons hnodup) hup rfl
          (WF_append acc.host _ j hiss hnext hjnum hnd hbound).1
          (WF_append acc.host _ j hiss hnext hjnum hnd hbound).2
          (hlabNew.trans hlabels) ?_ ?_ hfinal
        · intro b hb
          rcases List.mem_append.mp hb with h1 | h1
          · exact Synced_preserved_append tracker lbl bn b acc.host _ j hiss
              hp (fun hcon => hunproc bn (List.mem_cons_self bn rest)
                (hcon ▸ h1)) (hSync b h1)
          · rw [List.mem_singleton] at h1
            subst h1
            exact hSyncNew
        · intro b hb
          have hb1 : b ∉ processed := fun hcon =>
            hb (List.mem_append.mpr (Or.inl hcon))
          have hb2 : b ≠ bn := fun hcon =>
            hb (List.mem_append.mpr (Or.inr (by rw [hcon]; simp)))
          exact fresh_view_append lbl bn b h₀ acc.host _ j hiss hp hb2
            (hfresh b hb1).1 (hfresh b hb1).2

/-- A live `sync_bug` on a fully mirrored bug, with the Matcher map
computed from the current issue list, is a no-op: host unchanged, no
error, no mutation events. -/
theorem sync_bug_noop (tracker : TrackerState) (lbl pkg : String) (bn : Int)
    (h : HostState) (hS : Synced tracker lbl bn h) :
    (sync_bug false tracker h (matcherMap h.issues lbl) lbl pkg bn).host = h ∧
    (sync_bug false tracker h (matcherMap h.issues lbl) lbl pkg bn).err
      = none ∧
    mutationEvents
      (sync_bug false tracker h (matcherMap h.issues lbl) lbl pkg bn).trace
      = [] := by
  obtain ⟨summary, i, hst, hlm, hfind, hmk, hnem, hstate⟩ := hS
  have hlook : odLookup (matcherMap h.issues lbl) bn = some i :=
    (matcherMap_lastMatch h.issues lbl bn).trans hlm
  have hRe := sync_bug_matched_eq tracker h (matcherMap h.issues lbl) lbl pkg
    bn summary i hst hlook
  obtain ⟨left, hscan, hlen⟩ := scanComments_total i.comments
    (fetch_bug_log (tracker.logOf bn)) hnem (le_of_eq hmk)
  have hleft : left = [] := by
    rw [hmk, Nat.sub_self] at hlen
    exact List.length_eq_zero.mp hlen
  subst hleft
  have hRe2 := hRe.trans
    (sync_bug_rest_ok tracker h _ i.number summary bn i [] hfind hscan)
  rw [hRe2]
  dsimp only
  have hfun : (fun q : GIssue => if q.number = i.number
      then { q with comments := q.comments ++ List.map (fun e : String × Option String × String => mkCommentBody e.1 e.2.1 e.2.2) ([] : List (String × Option String × String)) } else q)
      = id := by
    funext q
    by_cases hq : q.number = i.number
    · rw [if_pos hq]
      show ({ q with comments := q.comments ++ [] } : GIssue) = q
      rw [List.append_nil]
    · rw [if_neg hq]
      rfl
  refine ⟨?_, rfl, ?_⟩
  · rw [hfun, List.map_id]
    show stateHost false h i.number i.state _ = h
    unfold stateHost
    rw [if_pos hstate]
  · rw [show List.map
        (fun e : String × Option String × String =>
          mkCommentBody e.1 e.2.1 e.2.2) [] = ([] : List String) from rfl]
    rw [show commentEvents false i.number [] = [] from rfl]
    rw [show stateTailEvents false i.number i.state
        (if summary.done then "closed" else "open") = [] from by
      unfold stateTailEvents
      rw [if_pos hstate]]
    simp [mutationEvents, List.filter_append, Event.isMutation]

/-- The events before the per-bug loop of a pass carry no host
mutation. -/
theorem syncRepoHeader_no_mutation (tracker : TrackerState)
    (host : HostState) (pkg repo lbl : String) :
    mutationEvents (syncRepoHeader tracker host pkg repo lbl).trace = [] := by
  apply mutation_filter_nil_of
  intro e he
  unfold syncRepoHeader at he
  simp only [List.mem_append] at he
  rcases he with ((((h1 | h1) | h1) | h1) | h1)
  · unfold syncHeaderEvents at h1
    fin_cases h1 <;> rfl
  · fin_cases h1 <;> rfl
  · fin_cases h1 <;> rfl
  · exact matcherFold_logs_no_mutation _ ([], []) (by simp) e h1
  · fin_cases h1 <;> rfl

/-- A live pass over bugs that are all mirrored already performs no
mutation and leaves the host exactly as it was. -/
theorem run2_fold (tracker : TrackerState) (lbl pkg : String)
    (h₁ : HostState) :
    ∀ (bugs : List Int) (acc : StepResult),
      acc.host = h₁ → acc.err = none → mutationEvents acc.trace = [] →
      (∀ bn ∈ bugs, Synced tracker lbl bn h₁) →
      ((bugs.foldl (syncFoldStep false tracker (matcherMap h₁.issues lbl)
          lbl pkg) acc).host = h₁ ∧
       (bugs.foldl (syncFoldStep false tracker (matcherMap h₁.issues lbl)
          lbl pkg) acc).err = none ∧
       mutationEvents (bugs.foldl (syncFoldStep false tracker
          (matcherMap h₁.issues lbl) lbl pkg) acc).trace = []) := by
  intro bugs
  induction bugs with
  | nil =>
    intro acc hhost herr htr _
    rw [List.foldl_nil]
    exact ⟨hhost, herr, htr⟩
  | cons bn rest ih =>
    intro acc hhost herr htr hSync
    rw [List.foldl_cons]
    obtain ⟨hh, he, hm⟩ := sync_bug_noop tracker lbl pkg bn h₁
      (hSync bn (List.mem_cons_self bn rest))
    have hstep : syncFoldStep false tracker (matcherMap h₁.issues lbl) lbl pkg
        acc bn
        = ⟨h₁, acc.trace ++ (sync_bug false tracker h₁ (matcherMap h₁.issues lbl) lbl pkg bn).trace, none⟩ := by
      simp only [syncFoldStep, herr, hhost]
      rw [hh, he]
    rw [hstep]
    refine ih _ rfl rfl ?_ (fun b hb => hSync b (List.mem_cons_of_mem bn hb))
    show mutationEvents (acc.trace ++ _) = []
    rw [mutationEvents_append, htr, hm]
    rfl

/-- C2: idempotence of `sync`.  For any tracker and any well-formed host
(pairwise-distinct issue numbers, all below the next issue number, and
pairwise-distinct bug ids in the package's bug list), if a live pass
completes without an exception then running the same pass again
immediately, with no tracker change in between, performs zero host
mutations: the second run's trace contains no `create_issue`,
`create_comment` or `edit(state=...)` call. -/
theorem C2_sync_idempotent (tracker : TrackerState) (host : HostState)
    (pkg repoName lbl : String)
    (hnd : (host.issues.map GIssue.number).Nodup)
    (hbound : ∀ i ∈ host.issues, i.number < host.nextIssue)
    (hbugs : (tracker.bugsOf pkg).Nodup)
    (herr : (syncRepo false tracker host pkg repoName lbl).err = none) :
    mutationEvents (syncRepo false tracker
      (syncRepo false tracker host pkg repoName lbl).host
      pkg repoName lbl).trace = [] := by
  by_cases hl : host.labels.contains lbl = true
  · have hrepo1 : syncRepo false tracker host pkg repoName lbl
        = (tracker.bugsOf pkg).foldl
          (syncFoldStep false tracker (matcherMap host.issues lbl) lbl pkg)
          (syncRepoHeader tracker host pkg repoName lbl) := by
      unfold syncRepo
      rw [if_pos hl]
      rfl
    rw [hrepo1] at herr ⊢
    obtain ⟨hlab1, hSync1⟩ := run1_fold tracker lbl pkg host
      (tracker.bugsOf pkg) [] (syncRepoHeader tracker host pkg repoName lbl)
      hbugs (by simp) rfl hnd hbound rfl (by simp)
      (fun bn _ => ⟨rfl, fun j hj =>
        findIssue_of_mem_nodup host hnd j (lastMatch_mem hj).1⟩)
      herr
    set h₁ := ((tracker.bugsOf pkg).foldl
      (syncFoldStep false tracker (matcherMap host.issues lbl) lbl pkg)
      (syncRepoHeader tracker host pkg repoName lbl)).host with hh₁
    have hl2 : h₁.labels.contains lbl = true := by
      rw [hlab1]
      exact hl
    have hrepo2 : syncRepo false tracker h₁ pkg repoName lbl
        = (tracker.bugsOf pkg).foldl
          (syncFoldStep false tracker (matcherMap h₁.issues lbl) lbl pkg)
          (syncRepoHeader tracker h₁ pkg repoName lbl) := by
      unfold syncRepo
      rw [if_pos hl2]
      rfl
    rw [hrepo2]
    obtain ⟨_, _, hm2⟩ := run2_fold tracker lbl pkg h₁ (tracker.bugsOf pkg)
      (syncRepoHeader tracker h₁ pkg repoName lbl) rfl rfl
      (syncRepoHeader_no_mutation tracker h₁ pkg repoName lbl)
      (fun bn hb => hSync1 bn (by simpa using hb))
    exact hm2
  · have hrepo1 : syncRepo false tracker host pkg repoName lbl
        = ⟨host, syncHeaderEvents tracker host pkg repoName lbl ++
            [.logMsg ("Label not found: create such bug label on GitHub: "
              ++ lbl)], none⟩ := by
      unfold syncRepo
      rw [if_neg hl]
    rw [hrepo1]
    dsimp only
    have hrepo2 : syncRepo false tracker host pkg repoName lbl
        = ⟨host, syncHeaderEvents tracker host pkg repoName lbl ++
            [.logMsg ("Label not found: create such bug label on GitHub: "
              ++ lbl)], none⟩ := hrepo1
    rw [hrepo2]
    dsimp only
    rw [mutationEvents_append]
    rw [mutation_filter_nil_of _ (by
      unfold syncHeaderEvents
      intro e he
      fin_cases he <;> rfl)]
    rw [mutation_filter_nil_of _ (by intro e he; fin_cases he <;> rfl)]
    rfl

/-- Tracker for the C2 witness: one package with one bug, which has a
status record and a one-message bug log. -/
def c2Tracker : TrackerState :=
  ⟨[("pkg", [7])], [(7, [⟨"subj", false⟩])],
   [(7, [⟨"Message-ID: mm", "body"⟩])]⟩

/-- Host for the C2 witness: sync label present, no issues yet. -/
def c2Host : HostState := ⟨["bts"], [], 1, 100, 1000⟩

theorem C2_witness :
    ((c2Host.issues.map GIssue.number).Nodup ∧
     (∀ i ∈ c2Host.issues, i.number < c2Host.nextIssue) ∧
     (c2Tracker.bugsOf "pkg").Nodup ∧
     (syncRepo false c2Tracker c2Host "pkg" "repo" "bts").err = none) ∧
    mutationEvents (syncRepo false c2Tracker
      (syncRepo false c2Tracker c2Host "pkg" "repo" "bts").host
      "pkg" "repo" "bts").trace = [] :=
  ⟨⟨by decide, by decide, by decide, by decide⟩,
   C2_sync_idempotent c2Tracker c2Host "pkg" "repo" "bts"
     (by decide) (by decide) (by decide) (by decide)⟩

end BtsSync
